import Mathlib

set_option maxRecDepth 10000

/-!
# Verification of the fuse-img2heic cache, name mapping and FUSE frontend

Shallow embedding of the core data structures and algorithms of the
`fuse-img2heic-rs` repository (src/cache.rs, src/file_detector.rs,
src/filesystem.rs, src/config.rs), together with theorems settling the
frozen specification claims.

Bytes are modelled as `Nat` values below 256, byte strings as `List Nat`.
Machine-integer overflow is modelled with explicit `% 2^w` exactly where the
source can overflow.  Stateful components (the image cache, the inode table)
are modelled as explicit state-passing functions; sources of nondeterminism
(the AES-GCM nonce drawn from `OsRng`, the `Instant::now()` clock) are
threaded as explicit parameters or state fields.
-/

namespace Img2Heic

/-! ## Byte-level utilities -/

/-- Little-endian encoding of a `u64` (`u64::to_le_bytes` in cache.rs). -/
def leBytes64 (n : Nat) : List Nat :=
  [n % 256, n / 256 % 256, n / 65536 % 256, n / 16777216 % 256,
   n / 4294967296 % 256, n / 1099511627776 % 256,
   n / 281474976710656 % 256, n / 72057594037927936 % 256]

/-- Little-endian encoding of a `u16` (`u16::to_le_bytes`). -/
def leBytes16 (n : Nat) : List Nat := [n % 256, n / 256 % 256]

/-- Big-endian encoding of a `u16` (`u16::to_be_bytes` in the cache header). -/
def beBytes16 (n : Nat) : List Nat := [n / 256 % 256, n % 256]

/-- Big-endian decoding of two bytes (`u16::from_be_bytes`). -/
def fromBeBytes16 (hi lo : Nat) : Nat := hi * 256 + lo

/-- UTF-8 encoding of one unicode scalar value, as Rust's `str::as_bytes`
produces it. -/
def utf8EncodeChar (c : Char) : List Nat :=
  let n := c.toNat
  if n < 128 then [n]
  else if n < 2048 then [192 + n / 64, 128 + n % 64]
  else if n < 65536 then [224 + n / 4096, 128 + n / 64 % 64, 128 + n % 64]
  else [240 + n / 262144, 128 + n / 4096 % 64, 128 + n / 64 % 64, 128 + n % 64]

/-- The UTF-8 bytes of a string (Rust `str::as_bytes`). -/
def strBytes (s : String) : List Nat := (s.toList.map utf8EncodeChar).flatten

/-! ## SHA-256 (the `sha2` crate's `Sha256`), implemented per FIPS 180-4 -/

def w32 (n : Nat) : Nat := n % 4294967296

def rotr32 (x k : Nat) : Nat := w32 ((x >>> k) ||| (x <<< (32 - k)))

def shaCh (x y z : Nat) : Nat := (x &&& y) ^^^ ((x ^^^ 4294967295) &&& z)

def shaMaj (x y z : Nat) : Nat := (x &&& y) ^^^ (x &&& z) ^^^ (y &&& z)

def bigSigma0 (x : Nat) : Nat := (rotr32 x 2) ^^^ (rotr32 x 13) ^^^ (rotr32 x 22)

def bigSigma1 (x : Nat) : Nat := (rotr32 x 6) ^^^ (rotr32 x 11) ^^^ (rotr32 x 25)

def smallSigma0 (x : Nat) : Nat := (rotr32 x 7) ^^^ (rotr32 x 18) ^^^ (x >>> 3)

def smallSigma1 (x : Nat) : Nat := (rotr32 x 17) ^^^ (rotr32 x 19) ^^^ (x >>> 10)

/-- The 64 round constants of FIPS 180-4 §4.2.2 (decimal). -/
def shaK : List Nat :=
  [1116352408, 1899447441, 3049323471, 3921009573, 961987163, 1508970993,
   2453635748, 2870763221, 3624381080, 310598401, 607225278, 1426881987,
   1925078388, 2162078206, 2614888103, 3248222580, 3835390401, 4022224774,
   264347078, 604807628, 770255983, 1249150122, 1555081692, 1996064986,
   2554220882, 2821834349, 2952996808, 3210313671, 3336571891, 3584528711,
   113926993, 338241895, 666307205, 773529912, 1294757372, 1396182291,
   1695183700, 1986661051, 2177026350, 2456956037, 2730485921, 2820302411,
   3259730800, 3345764771, 3516065817, 3600352804, 4094571909, 275423344,
   430227734, 506948616, 659060556, 883997877, 958139571, 1322822218,
   1537002063, 1747873779, 1955562222, 2024104815, 2227730452, 2361852424,
   2428436474, 2756734187, 3204031479, 3329325298]

structure ShaState where
  sa : Nat
  sb : Nat
  sc : Nat
  sd : Nat
  se : Nat
  sf : Nat
  sg : Nat
  sh : Nat
deriving DecidableEq

/-- The initial hash value of FIPS 180-4 §5.3.3 (decimal). -/
def shaInit : ShaState :=
  ⟨1779033703, 3144134277, 1013904242, 2773480762,
   1359893119, 2600822924, 528734635, 1541459225⟩

def shaRound (st : ShaState) (k w : Nat) : ShaState :=
  let t1 := (st.sh + bigSigma1 st.se + shaCh st.se st.sf st.sg + k + w) % 4294967296
  let t2 := (bigSigma0 st.sa + shaMaj st.sa st.sb st.sc) % 4294967296
  ⟨(t1 + t2) % 4294967296, st.sa, st.sb, st.sc,
   (st.sd + t1) % 4294967296, st.se, st.sf, st.sg⟩

/-- Group bytes into big-endian 32-bit words. -/
def bytesToWordsBE : List Nat → List Nat
  | b3 :: b2 :: b1 :: b0 :: rest =>
      (b3 * 16777216 + b2 * 65536 + b1 * 256 + b0) :: bytesToWordsBE rest
  | _ => []

def wordToBytesBE (x : Nat) : List Nat :=
  [x / 16777216 % 256, x / 65536 % 256, x / 256 % 256, x % 256]

def iterate (f : α → α) : Nat → α → α
  | 0, a => a
  | n + 1, a => iterate f n (f a)

/-- One message-schedule extension step, appending word `w[n]` for `n ≥ 16`. -/
def shaExtendStep (ws : List Nat) : List Nat :=
  let n := ws.length
  ws ++ [(ws.getD (n - 16) 0 + smallSigma0 (ws.getD (n - 15) 0) +
          ws.getD (n - 7) 0 + smallSigma1 (ws.getD (n - 2) 0)) % 4294967296]

def shaSchedule (ws : List Nat) : List Nat := iterate shaExtendStep 48 ws

def shaCompress (st : ShaState) (block : List Nat) : ShaState :=
  let ws := shaSchedule (bytesToWordsBE block)
  let fin := (List.zip shaK ws).foldl (fun s kw => shaRound s kw.1 kw.2) st
  ⟨(st.sa + fin.sa) % 4294967296, (st.sb + fin.sb) % 4294967296,
   (st.sc + fin.sc) % 4294967296, (st.sd + fin.sd) % 4294967296,
   (st.se + fin.se) % 4294967296, (st.sf + fin.sf) % 4294967296,
   (st.sg + fin.sg) % 4294967296, (st.sh + fin.sh) % 4294967296⟩

def beBytes64 (n : Nat) : List Nat :=
  [n / 72057594037927936 % 256, n / 281474976710656 % 256,
   n / 1099511627776 % 256, n / 4294967296 % 256,
   n / 16777216 % 256, n / 65536 % 256, n / 256 % 256, n % 256]

/-- SHA-256 padding: `0x80`, zeros to 56 mod 64, then the bit length. -/
def shaPad (msg : List Nat) : List Nat :=
  let len := msg.length
  msg ++ [128] ++ List.replicate ((64 - (len + 9) % 64) % 64) 0 ++ beBytes64 (len * 8)

def chunksAux : Nat → List Nat → List (List Nat)
  | 0, _ => []
  | _, [] => []
  | fuel + 1, l => l.take 64 :: chunksAux fuel (l.drop 64)

/-- Split into 64-byte blocks (the padded message length is a positive
multiple of 64, so the fuel `l.length` never runs out first). -/
def chunks64 (l : List Nat) : List (List Nat) := chunksAux l.length l

/-- The SHA-256 digest (32 bytes) of a byte string. -/
def sha256 (msg : List Nat) : List Nat :=
  let fin := (chunks64 (shaPad msg)).foldl shaCompress shaInit
  wordToBytesBE fin.sa ++ wordToBytesBE fin.sb ++ wordToBytesBE fin.sc ++
  wordToBytesBE fin.sd ++ wordToBytesBE fin.se ++ wordToBytesBE fin.sf ++
  wordToBytesBE fin.sg ++ wordToBytesBE fin.sh

/-! ## Lowercase hex encoding (the `hex` crate's `hex::encode`) -/

def hexChars : List Char := "0123456789abcdef".toList

def hexByte (b : Nat) : List Char :=
  [hexChars.getD (b / 16 % 16) '0', hexChars.getD (b % 16) '0']

def hexEncode (bs : List Nat) : String := String.mk ((bs.map hexByte).flatten)

/-! ## Association lists

`DashMap` (and the on-disk shard directory) are modelled as association
lists with unique keys: `ainsert` inserts-or-replaces, `aremove` deletes. -/

def alookup [DecidableEq α] (l : List (α × β)) (k : α) : Option β :=
  match l with
  | [] => none
  | (k', v) :: rest => if k' = k then some v else alookup rest k

def ainsert [DecidableEq α] (l : List (α × β)) (k : α) (v : β) : List (α × β) :=
  match l with
  | [] => [(k, v)]
  | (k', v') :: rest => if k' = k then (k, v) :: rest else (k', v') :: ainsert rest k v

def aremove [DecidableEq α] (l : List (α × β)) (k : α) : List (α × β) :=
  match l with
  | [] => []
  | (k', v') :: rest => if k' = k then rest else (k', v') :: aremove rest k

/-! ## Configuration (config.rs) -/

/-- `HeicSettings` from config.rs.  `quality` and `speed` are `u8`, `chroma`
is `u16`; range hypotheses are carried by the theorems that need them. -/
structure HeicSettings where
  quality : Nat
  speed : Nat
  chroma : Nat
  max_resolution : Option String
deriving DecidableEq

/-- `SourcePath` from config.rs. -/
structure SourcePath where
  path : String
  recursive : Bool
  mount_name : String
deriving DecidableEq

/-! ## Cache file header (cache.rs, `CacheFileHeader`) -/

/-- `CACHE_FILE_MAGIC`: the bytes of `b"FHIC"`. -/
def CACHE_FILE_MAGIC : List Nat := [70, 72, 73, 67]

def CACHE_FILE_VERSION : Nat := 1

def HEADER_SIZE : Nat := 70

structure CacheFileHeader where
  magic : List Nat
  version : Nat
  encrypted : Nat
  quality : Nat
  speed : Nat
  chroma : Nat
  reserved : List Nat
  checksum : List Nat
  nonce : List Nat
deriving DecidableEq

namespace CacheFileHeader

def new_unencrypted (payload_checksum : List Nat) (quality speed chroma : Nat) :
    CacheFileHeader :=
  { magic := CACHE_FILE_MAGIC
    version := CACHE_FILE_VERSION
    encrypted := 0
    quality := quality
    speed := speed
    chroma := chroma
    reserved := List.replicate 16 0
    checksum := payload_checksum
    nonce := List.replicate 12 0 }

def new_encrypted (payload_checksum nonce : List Nat) (quality speed chroma : Nat) :
    CacheFileHeader :=
  { magic := CACHE_FILE_MAGIC
    version := CACHE_FILE_VERSION
    encrypted := 1
    quality := quality
    speed := speed
    chroma := chroma
    reserved := List.replicate 16 0
    checksum := payload_checksum
    nonce := nonce }

def to_bytes (h : CacheFileHeader) : List Nat :=
  h.magic ++ [h.version, h.encrypted, h.quality, h.speed] ++ beBytes16 h.chroma ++
  h.reserved ++ h.checksum ++ h.nonce

def from_bytes (bytes : List Nat) : Except String CacheFileHeader :=
  if bytes.length < HEADER_SIZE then .error "Header too small"
  else if [bytes.getD 0 0, bytes.getD 1 0, bytes.getD 2 0, bytes.getD 3 0] ≠
      CACHE_FILE_MAGIC then .error "Invalid magic bytes"
  else if bytes.getD 4 0 ≠ CACHE_FILE_VERSION then .error "Unsupported version"
  else
    .ok { magic := [bytes.getD 0 0, bytes.getD 1 0, bytes.getD 2 0, bytes.getD 3 0]
          version := bytes.getD 4 0
          encrypted := bytes.getD 5 0
          quality := bytes.getD 6 0
          speed := bytes.getD 7 0
          chroma := fromBeBytes16 (bytes.getD 8 0) (bytes.getD 9 0)
          reserved := (bytes.drop 10).take 16
          checksum := (bytes.drop 26).take 32
          nonce := (bytes.drop 58).take 12 }

def is_encrypted (h : CacheFileHeader) : Bool := h.encrypted = 1

def matches_heic_settings (h : CacheFileHeader) (quality speed chroma : Nat) : Bool :=
  h.quality = quality && h.speed = speed && h.chroma = chroma

end CacheFileHeader

/-! ## AEAD model

Modelled from the spec: the payload encryption is AES-256-GCM supplied by the
external `aes_gcm` crate (not part of this repository's sources).  It is
modelled as a generic authenticated cipher: a CTR-style keystream XORed over
the plaintext, followed by a 16-byte tag over `(key, nonce, ciphertext)`.
Only the interface shape (deterministic encrypt, decrypt that fails on a bad
tag) is relied on by the claims below. -/

def aeadKeystream (key nonce : List Nat) (n : Nat) : List Nat :=
  ((List.range (n / 32 + 1)).map (fun i => sha256 (key ++ nonce ++ leBytes64 i))).flatten.take n

def xorBytes (a b : List Nat) : List Nat := List.zipWith (· ^^^ ·) a b

/-- Modelled from the spec: `Aes256Gcm::encrypt` (ciphertext with appended tag). -/
def aesGcmEncrypt (key nonce data : List Nat) : List Nat :=
  let ct := xorBytes data (aeadKeystream key nonce data.length)
  ct ++ (sha256 (key ++ nonce ++ ct)).take 16

/-- Modelled from the spec: `Aes256Gcm::decrypt`; `none` is an authentication
failure. -/
def aesGcmDecrypt (key nonce ct : List Nat) : Option (List Nat) :=
  if ct.length < 16 then none
  else
    let c := ct.take (ct.length - 16)
    let tag := ct.drop (ct.length - 16)
    if tag = (sha256 (key ++ nonce ++ c)).take 16 then
      some (xorBytes c (aeadKeystream key nonce c.length))
    else none

/-! ## The image cache (cache.rs, `ImageCache`)

The cache is a sequential state machine: `mem` is the `data : DashMap`,
`access_times` the access-time map (`Instant`s as `Nat` ticks, `now` the
clock), `current_size` the `AtomicU64` byte counter, and `disk` the shard
directory, keyed by `get_cache_file_path`'s `(subdir, filename)` pair.
Randomness (the AES-GCM nonce) is an explicit argument of `put`. -/

structure CacheEntry where
  data : List Nat
  size : Nat
deriving DecidableEq

structure CacheState where
  mem : List (String × CacheEntry)
  access_times : List (String × Nat)
  current_size : Nat
  max_size : Nat
  disk : List ((String × String) × List Nat)
  disk_cache_enabled : Bool
  encryption_enabled : Bool
  now : Nat
deriving DecidableEq

/-- `get_cache_file_path`: first two key characters name the shard
subdirectory, the rest the file (cache.rs:602-608). -/
def get_cache_file_path (cache_key : String) : String × String :=
  (cache_key.take 2, cache_key.drop 2)

/-- `create_cache_key` (cache.rs:568-587), as the exact sequence of streaming
hasher updates: a `Sha256` update is an append to the hashed stream. -/
def create_cache_key (filepath : String) (original_size : Nat)
    (heic_settings : HeicSettings) : String :=
  hexEncode (sha256
    (strBytes filepath ++ leBytes64 original_size ++ [heic_settings.quality] ++
     [heic_settings.speed] ++ leBytes16 heic_settings.chroma ++
     (match heic_settings.max_resolution with
      | some res_str => strBytes res_str
      | none => [])))

namespace ImageCache

/-- `generate_encryption_key` (cache.rs:196-202). -/
def generate_encryption_key (filepath : String) : List Nat :=
  sha256 (strBytes filepath ++ strBytes "fuse-img2heic-encryption-key")

/-- `ImageCache::new` state (cache.rs:163-193): empty maps, zero counter,
`disk_cache_enabled = true`; `disk` holds whatever valid files a previous
process left behind (`load_from_disk` keeps them on disk without counting
them towards `current_size`, cache.rs:389-457). -/
def newState (max_size_mb : Nat) (disk : List ((String × String) × List Nat))
    (encryption_enabled : Bool) : CacheState :=
  { mem := []
    access_times := []
    current_size := 0
    max_size := max_size_mb * 1024 * 1024
    disk := disk
    disk_cache_enabled := true
    encryption_enabled := encryption_enabled
    now := 0 }

/-- `save_to_disk_key` (cache.rs:459-505). -/
def save_to_disk_key (st : CacheState) (key : String) (data : List Nat)
    (filepath : String) (heic_settings : HeicSettings) (nonce : List Nat) :
    CacheState :=
  let file_path := get_cache_file_path key
  let payload_checksum := sha256 data
  let fd_header :=
    if st.encryption_enabled then
      (aesGcmEncrypt (generate_encryption_key filepath) nonce data,
       CacheFileHeader.new_encrypted payload_checksum nonce
         heic_settings.quality heic_settings.speed heic_settings.chroma)
    else
      (data,
       CacheFileHeader.new_unencrypted payload_checksum
         heic_settings.quality heic_settings.speed heic_settings.chroma)
  { st with disk := ainsert st.disk file_path (fd_header.2.to_bytes ++ fd_header.1) }

/-- `load_from_disk_key` (cache.rs:507-557). -/
def load_from_disk_key (st : CacheState) (key filepath : String)
    (heic_settings : HeicSettings) : Except String (List Nat) :=
  match alookup st.disk (get_cache_file_path key) with
  | none => .error "No such file"
  | some file_content =>
    if file_content.length < HEADER_SIZE then .error "Cache file too small"
    else
      match CacheFileHeader.from_bytes (file_content.take HEADER_SIZE) with
      | .error e => .error e
      | .ok header =>
        if ¬ header.matches_heic_settings heic_settings.quality
            heic_settings.speed heic_settings.chroma then
          .error "HEIC settings mismatch, cache entry invalid"
        else
          match
            (if header.is_encrypted then
              (if ¬ st.encryption_enabled then
                .error "Cache file is encrypted but encryption is disabled"
              else
                match aesGcmDecrypt (generate_encryption_key filepath)
                    header.nonce (file_content.drop HEADER_SIZE) with
                | none => .error "Failed to decrypt cache data"
                | some d => .ok d)
            else (.ok (file_content.drop HEADER_SIZE) : Except String (List Nat)))
          with
          | .error e => .error e
          | .ok decrypted_data =>
            if sha256 decrypted_data ≠ header.checksum then
              .error "Cache file checksum mismatch"
            else .ok decrypted_data

/-- `remove_from_disk_key` (cache.rs:559-563). -/
def remove_from_disk_key (st : CacheState) (key : String) : CacheState :=
  { st with disk := aremove st.disk (get_cache_file_path key) }

/-- Stable insertion into a time-sorted list (ties may order either way;
the source collects `DashMap` entries in arbitrary iteration order before
its stable sort, so tie order is unspecified there as well). -/
def insertByTime (p : String × Nat) : List (String × Nat) → List (String × Nat)
  | [] => [p]
  | q :: rest => if q.2 ≤ p.2 then q :: insertByTime p rest else p :: q :: rest

/-- `entries.sort_by_key(|(_, time)| *time)` in `ensure_space` (cache.rs:347). -/
def sortByTime : List (String × Nat) → List (String × Nat)
  | [] => []
  | p :: rest => insertByTime p (sortByTime rest)

/-- The eviction loop of `ensure_space` (cache.rs:351-367).  Returns the new
state and the list of evicted keys (in eviction order), the latter a ghost
output used only by the specification. -/
def evict_loop (target : Nat) :
    List (String × Nat) → CacheState → CacheState × List String
  | [], st => (st, [])
  | (key, _) :: rest, st =>
    if st.current_size ≤ target then (st, [])
    else
      match alookup st.mem key with
      | some entry =>
        let st' := { st with
          mem := aremove st.mem key
          access_times := aremove st.access_times key
          current_size := st.current_size - entry.size
          disk := if st.disk_cache_enabled then
              aremove st.disk (get_cache_file_path key)
            else st.disk }
        let r := evict_loop target rest st'
        (r.1, key :: r.2)
      | none => evict_loop target rest st

/-- `ensure_space` (cache.rs:327-368).  `target = max_size.saturating_sub
(needed_size)` is natural subtraction. -/
def ensure_space (st : CacheState) (needed_size : Nat) :
    CacheState × List String :=
  if st.current_size + needed_size ≤ st.max_size then (st, [])
  else evict_loop (st.max_size - needed_size) (sortByTime st.access_times) st

/-- `ImageCache::get` (cache.rs:245-282): result value and next state. -/
def get (st : CacheState) (key filepath : String)
    (heic_settings : HeicSettings) : Option (List Nat) × CacheState :=
  let st0 := { st with access_times := ainsert st.access_times key st.now,
                       now := st.now + 1 }
  match alookup st0.mem key with
  | some entry => (some entry.data, st0)
  | none =>
    if st0.disk_cache_enabled then
      match load_from_disk_key st0 key filepath heic_settings with
      | .ok data =>
        let size := data.length
        let st1 :=
          if st0.current_size + size ≤ st0.max_size then
            { st0 with mem := ainsert st0.mem key ⟨data, size⟩,
                       current_size := st0.current_size + size }
          else st0
        (some data, st1)
      | .error _ => (none, remove_from_disk_key st0 key)
    else (none, st0)

/-- `ImageCache::put` (cache.rs:293-325). `nonce` is the randomness `OsRng`
would feed `encrypt_data`. -/
def put (st : CacheState) (key : String) (data : List Nat) (filepath : String)
    (heic_settings : HeicSettings) (nonce : List Nat) : CacheState :=
  let size := data.length
  let st0 := (ensure_space st size).1
  let st1 := { st0 with mem := ainsert st0.mem key ⟨data, size⟩,
                        access_times := ainsert st0.access_times key st0.now,
                        now := st0.now + 1,
                        current_size := st0.current_size + size }
  if st1.disk_cache_enabled then
    save_to_disk_key st1 key data filepath heic_settings nonce
  else st1

end ImageCache

/-- Total on-disk byte count of the cache: header plus payload of every
file under `cache_dir`. -/
def diskTotal (st : CacheState) : Nat := (st.disk.map (fun p => p.2.length)).sum

/-! ## Paths

Host and virtual paths are strings with `/`-separated components.  The
helpers below mirror the `std::path::Path` accessors the sources use:
`extension` is the part of the file name after its last `.`, provided that
dot is not the leading character (so `".heic"` has no extension), and
`file_stem` is the part before that dot. -/

/-- Split a character list at every occurrence of `sep` (kernel-computable
replacement for `String.splitOn`). -/
def splitOnChar (sep : Char) : List Char → List (List Char)
  | [] => [[]]
  | c :: rest =>
    let r := splitOnChar sep rest
    if c = sep then [] :: r
    else (c :: r.headD []) :: r.tail

def splitComponents (p : String) : List String :=
  ((splitOnChar '/' p.toList).map String.mk).filter (fun s => s ≠ "")

/-- ASCII-faithful lowercasing of an extension (Rust `str::to_lowercase` on
the extensions the detector sees). -/
def toLowerStr (s : String) : String := String.mk (s.toList.map Char.toLower)

def joinComponents : List String → String := String.intercalate "/"

/-- `Path::file_name`. -/
def fileName (p : String) : Option String := (splitComponents p).getLast?

/-- Index of the last `.` of a file name that is preceded by at least one
character; `Path::extension` exists exactly when this does. -/
def lastDotIdx (cs : List Char) : Option Nat :=
  (List.range cs.length).foldl
    (fun acc i => if cs.getD i ' ' = '.' ∧ 1 ≤ i then some i else acc) none

def nameExtension (name : String) : Option String :=
  match lastDotIdx name.toList with
  | some i => some (String.mk (name.toList.drop (i + 1)))
  | none => none

def nameStem (name : String) : String :=
  match lastDotIdx name.toList with
  | some i => String.mk (name.toList.take i)
  | none => name

/-- `Path::extension`. -/
def pathExtension (p : String) : Option String := (fileName p).bind nameExtension

/-- `Path::file_stem`. -/
def pathFileStem (p : String) : Option String := (fileName p).map nameStem

/-- `Path::parent`. -/
def parentDir (p : String) : Option String :=
  match splitComponents p with
  | [] => none
  | comps =>
    let par := joinComponents comps.dropLast
    if p.toList.headD ' ' = '/' then some ("/" ++ par) else some par

/-- `Path::join` for the shapes the sources build (joining with an empty
relative path is the identity). -/
def pathJoin (p q : String) : String :=
  if q = "" then p else if p = "" then q else p ++ "/" ++ q

/-! ## Format detection (file_detector.rs) -/

inductive ImageFormat
  | jpeg | png | gif | heic | webp | bmp | tiff
deriving DecidableEq

/-- `ImageFormat::from_extension` (file_detector.rs:21-32). -/
def ImageFormat.from_extension (ext : String) : Option ImageFormat :=
  match toLowerStr ext with
  | "jpg" | "jpeg" => some .jpeg
  | "png" => some .png
  | "gif" => some .gif
  | "heic" | "heif" => some .heic
  | "webp" => some .webp
  | "bmp" => some .bmp
  | "tif" | "tiff" => some .tiff
  | _ => none

namespace FileDetector

/-- The fixed candidate-extension order of `get_real_path`
(file_detector.rs:282). -/
def extension_candidates : List String :=
  ["heic", "jpg", "jpeg", "png", "gif", "webp", "bmp", "tiff"]

/-- `FileDetector::get_real_path` (file_detector.rs:257-310).  The host
filesystem is an oracle `path_exists`; `is_image_file` is the detector's
regex-plus-content classifier (file_detector.rs:79-104), reached only on the
non-`.heic` branch. -/
def get_real_path (path_exists is_image_file : String → Bool)
    (source_paths : List SourcePath) (virtual_path : String) : Option String :=
  match splitComponents virtual_path with
  | [] => none
  | mount_name :: relparts =>
    let relative_path := joinComponents relparts
    match source_paths.find? (fun sp => sp.mount_name == mount_name) with
    | none => none
    | some source_path =>
      let base_path := pathJoin source_path.path relative_path
      if pathExtension virtual_path = some "heic" then
        match pathFileStem base_path, parentDir base_path with
        | some stem, some parent =>
          (extension_candidates.map
              (fun ext => pathJoin parent (stem ++ "." ++ ext))).find?
            (fun real_path => path_exists real_path &&
              (match pathExtension real_path with
               | some ext => (ImageFormat.from_extension ext).isSome
               | none => false))
        | _, _ => none
      else
        if path_exists base_path && is_image_file base_path then some base_path
        else none

end FileDetector

/-! ## FUSE frontend (filesystem.rs) -/

def ROOT_INODE : Nat := 1

/-- The inode table of `ImageFuseFS`: the two `DashMap`s and the atomic
counter (filesystem.rs:28-30), as a sequential state. -/
structure FsState where
  inode_map : List (Nat × String)
  path_map : List (String × Nat)
  next_inode : Nat
deriving DecidableEq

/-- fuse3 `DirectoryEntry`: inode, kind (directory?), name, cookie offset. -/
structure DirEntry where
  inode : Nat
  is_dir : Bool
  name : String
  cookie : Nat
deriving DecidableEq

namespace ImageFuseFS

/-- The inode-table part of `ImageFuseFS::new` (filesystem.rs:52-65). -/
def newState : FsState :=
  { inode_map := [(ROOT_INODE, "/")]
    path_map := [("/", ROOT_INODE)]
    next_inode := ROOT_INODE + 1 }

/-- `get_or_create_inode` (filesystem.rs:74-86). -/
def get_or_create_inode (st : FsState) (virtual_path : String) :
    Nat × FsState :=
  match alookup st.path_map virtual_path with
  | some inode => (inode, st)
  | none =>
    let inode := st.next_inode
    (inode,
     { inode_map := ainsert st.inode_map inode virtual_path
       path_map := ainsert st.path_map virtual_path inode
       next_inode := inode + 1 })

/-- `ImageFuseFS::readdir` (filesystem.rs:460-516).  `listing` is the
already-computed `list_directory` result `(name, inode, is_directory)`;
`none` models the `ENOENT` reply for an unknown parent inode.  Entry
cookies are `index + 1` in emission order. -/
def readdir (st : FsState) (parent : Nat) (offset : Nat)
    (listing : List (String × Nat × Bool)) :
    Option (List DirEntry) × FsState :=
  match alookup st.inode_map parent with
  | none => (none, st)
  | some virtual_path =>
    let dot : DirEntry := ⟨parent, true, ".", 1⟩
    let dots_st :=
      if virtual_path = "/" then ([dot], st)
      else
        let pr :=
          match parentDir virtual_path with
          | some parent_dir => get_or_create_inode st parent_dir
          | none => (ROOT_INODE, st)
        ([dot, ⟨pr.1, true, "..", 2⟩], pr.2)
    let dots := dots_st.1
    let entries := listing.enum.map (fun p =>
      (⟨p.2.2.1, p.2.2.2, p.2.1, dots.length + p.1 + 1⟩ : DirEntry))
    (some ((dots ++ entries).drop offset), dots_st.2)

def USIZE_MOD : Nat := 18446744073709551616

/-- The byte-range slicing `read` applies to whatever artifact it serves
(filesystem.rs:361-371 and 419-425): `end = min(offset as usize + size as
usize, len)`, `start = min(offset as usize, len)`, reply `data[start..end]`.
The `usize` addition wraps at `2^64`; `none` models the panic a reversed
range `start > end` causes (debug builds already panic at the overflowing
addition). -/
def read_slice (data : List Nat) (offset size : Nat) : Option (List Nat) :=
  let endIdx := min ((offset + size) % USIZE_MOD) data.length
  let startIdx := min offset data.length
  if startIdx ≤ endIdx then some ((data.take endIdx).drop startIdx) else none

/-- A sequence of `get_or_create_inode` calls, one per listed virtual path:
an arbitrary interleaving of the inode-allocating operations of one process
life. -/
def applyTrace (st : FsState) : List String → FsState
  | [] => st
  | p :: rest => applyTrace (get_or_create_inode st p).2 rest

end ImageFuseFS

/-- The inode-table invariant of claim C8: the root pair is present (inode
1), the two maps are mutually inverse, and every allocated inode is 1 (the
root) or lies in `[2, next_inode)`. -/
def InodeInv (st : FsState) : Prop :=
  alookup st.path_map "/" = some 1 ∧
  alookup st.inode_map 1 = some "/" ∧
  2 ≤ st.next_inode ∧
  (∀ p i, alookup st.path_map p = some i → alookup st.inode_map i = some p) ∧
  (∀ i p, alookup st.inode_map i = some p → alookup st.path_map p = some i) ∧
  (∀ p i, alookup st.path_map p = some i → i < st.next_inode) ∧
  (∀ p i, alookup st.path_map p = some i → p ≠ "/" → 2 ≤ i)

/-! ## Claim-side definitions (from the claim wording, for refinement
comparison) -/

/-- `Path::with_extension`-style replacement used by claim C6's wording
"the base host path with its extension replaced". -/
def withExtension (p e : String) : Option String :=
  match pathFileStem p, parentDir p with
  | some stem, some parent => some (pathJoin parent (stem ++ "." ++ e))
  | _, _ => none

/-- "whose extension is a recognized image extension" (claim C6). -/
def isRecognizedImage (p : String) : Bool :=
  match pathExtension p with
  | some e => (ImageFormat.from_extension e).isSome
  | none => false

/-- Claim C6's resolution algorithm, written from the claim's words: split
off the mount name, locate the source root, and try the candidate
extensions in the fixed order against the base path with its extension
replaced, returning the first candidate that exists on the host and has a
recognized image extension. -/
def claimHeicResolution (path_exists : String → Bool)
    (source_paths : List SourcePath) (virtual_path : String) : Option String :=
  match splitComponents virtual_path with
  | [] => none
  | mount_name :: relparts =>
    match source_paths.find? (fun sp => sp.mount_name == mount_name) with
    | none => none
    | some root =>
      let base := pathJoin root.path (joinComponents relparts)
      (FileDetector.extension_candidates.filterMap (withExtension base)).find?
        (fun c => path_exists c && isRecognizedImage c)

/-- A reachable cache state refuting claim C5: a fresh process finds a valid
cache file from an earlier run on disk (`load_from_disk` keeps it but resets
`current_size` to `0`, cache.rs:439-453), and the current process has one
tracked 600000-byte entry. -/
def orphanFile : List Nat :=
  (CacheFileHeader.new_unencrypted (List.replicate 32 0) 50 4 420).to_bytes ++
    List.replicate 1048577 0

def c5CounterState : CacheState :=
  { mem := [("aakey1", ⟨List.replicate 600000 0, 600000⟩)]
    access_times := [("aakey1", 0)]
    current_size := 600000
    max_size := 1 * 1024 * 1024
    disk := [(("aa", "key1"), List.replicate 600070 0), (("or", "phan"), orphanFile)]
    disk_cache_enabled := true
    encryption_enabled := false
    now := 1 }

/-- A valid unencrypted cache file for payload `[1, 2, 3]` whose last
payload byte has been flipped from `3` to `250` (claim C2's tampering
scenario). -/
def c2TamperedFile : List Nat :=
  (CacheFileHeader.new_unencrypted (sha256 [1, 2, 3]) 50 4 420).to_bytes ++
    [1, 2, 250]

def c2WitnessState : CacheState :=
  { mem := []
    access_times := []
    current_size := 0
    max_size := 1048576
    disk := [(get_cache_file_path "cachekey01", c2TamperedFile)]
    disk_cache_enabled := true
    encryption_enabled := false
    now := 0 }

/-- An encrypted cache file (flag 1) as seen by an instance created with
encryption disabled (claim C10's scenario). -/
def c10EncryptedFile : List Nat :=
  (CacheFileHeader.new_encrypted (sha256 [9, 9]) (List.replicate 12 7)
      50 4 420).to_bytes ++ [0, 0]

def c10WitnessState : CacheState :=
  { mem := []
    access_times := []
    current_size := 0
    max_size := 1048576
    disk := [(get_cache_file_path "cachekey01", c10EncryptedFile)]
    disk_cache_enabled := true
    encryption_enabled := false
    now := 0 }

/-! ## Association-list lemmas -/

theorem alookup_ainsert_self [DecidableEq α] (l : List (α × β)) (k : α) (v : β) :
    alookup (ainsert l k v) k = some v := by
  induction l with
  | nil => simp [ainsert, alookup]
  | cons p rest ih =>
    obtain ⟨k', v'⟩ := p
    by_cases h : k' = k
    · simp [ainsert, h, alookup]
    · simp [ainsert, h, alookup, ih]

theorem alookup_ainsert_ne [DecidableEq α] (l : List (α × β)) (k k' : α) (v : β)
    (h : k' ≠ k) : alookup (ainsert l k v) k' = alookup l k' := by
  induction l with
  | nil => simp [ainsert, alookup, Ne.symm h]
  | cons p rest ih =>
    obtain ⟨k0, v0⟩ := p
    by_cases h0 : k0 = k
    · subst h0
      simp [ainsert, alookup, Ne.symm h]
    · simp only [ainsert, if_neg h0, alookup]
      by_cases h1 : k0 = k'
      · simp [h1]
      · simp [h1, ih]

theorem alookup_aremove_ne [DecidableEq α] (l : List (α × β)) (k k' : α)
    (h : k' ≠ k) : alookup (aremove l k) k' = alookup l k' := by
  induction l with
  | nil => simp [aremove]
  | cons p rest ih =>
    obtain ⟨k0, v0⟩ := p
    by_cases h0 : k0 = k
    · subst h0
      simp [aremove, alookup, Ne.symm h]
    · simp only [aremove, if_neg h0, alookup]
      by_cases h1 : k0 = k'
      · simp [h1]
      · simp [h1, ih]

theorem alookup_eq_none_of_not_mem [DecidableEq α] (l : List (α × β)) (k : α)
    (h : k ∉ l.map Prod.fst) : alookup l k = none := by
  induction l with
  | nil => simp [alookup]
  | cons p rest ih =>
    obtain ⟨k0, v0⟩ := p
    simp only [List.map_cons, List.mem_cons] at h
    push_neg at h
    simp [alookup, Ne.symm h.1, ih h.2]

theorem alookup_isSome_mem [DecidableEq α] (l : List (α × β)) (k : α)
    (h : (alookup l k).isSome) : k ∈ l.map Prod.fst := by
  by_contra hc
  rw [alookup_eq_none_of_not_mem l k hc] at h
  simp at h

theorem alookup_aremove_self [DecidableEq α] (l : List (α × β)) (k : α)
    (hnd : (l.map Prod.fst).Nodup) : alookup (aremove l k) k = none := by
  induction l with
  | nil => simp [aremove, alookup]
  | cons p rest ih =>
    obtain ⟨k0, v0⟩ := p
    simp only [List.map_cons, List.nodup_cons] at hnd
    by_cases h0 : k0 = k
    · subst h0
      simp only [aremove, if_pos rfl]
      exact alookup_eq_none_of_not_mem _ _ hnd.1
    · simp [aremove, h0, alookup, ih hnd.2]

theorem aremove_sublist [DecidableEq α] (l : List (α × β)) (k : α) :
    (aremove l k).Sublist l := by
  induction l with
  | nil => simp [aremove]
  | cons p rest ih =>
    obtain ⟨k0, v0⟩ := p
    by_cases h0 : k0 = k
    · simp [aremove, h0]
    · simpa [aremove, h0] using ih

theorem aremove_map_fst_nodup [DecidableEq α] (l : List (α × β)) (k : α)
    (hnd : (l.map Prod.fst).Nodup) : ((aremove l k).map Prod.fst).Nodup :=
  ((aremove_sublist l k).map Prod.fst).nodup hnd

theorem alookup_size_le (l : List (String × CacheEntry)) (k : String)
    (e : CacheEntry) (h : alookup l k = some e) :
    e.size ≤ (l.map (fun p => p.2.size)).sum := by
  induction l with
  | nil => simp [alookup] at h
  | cons p rest ih =>
    obtain ⟨k0, v0⟩ := p
    simp only [alookup] at h
    by_cases h0 : k0 = k
    · simp only [if_pos h0] at h
      cases h
      simp
    · simp only [if_neg h0] at h
      simp only [List.map_cons, List.sum_cons]
      exact le_trans (ih h) (Nat.le_add_left _ _)

theorem aremove_sum (l : List (String × CacheEntry)) (k : String)
    (e : CacheEntry) (h : alookup l k = some e) :
    ((aremove l k).map (fun p => p.2.size)).sum =
      (l.map (fun p => p.2.size)).sum - e.size := by
  induction l with
  | nil => simp [alookup] at h
  | cons p rest ih =>
    obtain ⟨k0, v0⟩ := p
    simp only [alookup] at h
    by_cases h0 : k0 = k
    · simp only [if_pos h0] at h
      cases h
      simp [aremove, h0]
    · simp only [if_neg h0] at h
      have hle := alookup_size_le rest k e h
      simp only [aremove, if_neg h0, List.map_cons, List.sum_cons, ih h]
      omega

/-! ## SHA-256 and hex lemmas -/

theorem sha256_length (msg : List Nat) : (sha256 msg).length = 32 := by
  simp [sha256, wordToBytesBE]

theorem hexEncode_length (bs : List Nat) : (hexEncode bs).length = 2 * bs.length := by
  simp only [hexEncode, String.length]
  induction bs with
  | nil => simp
  | cons b rest ih =>
    simp only [List.map_cons, List.flatten_cons, List.length_append, hexByte] at *
    simp only [List.length_cons, List.length_nil]
    omega

theorem hexChars_getD_mem (n : Nat) (h : n < 16) :
    hexChars.getD n '0' ∈ hexChars := by
  interval_cases n <;> decide

theorem mem_flatten_map_hexByte (bs : List Nat) (ch : Char)
    (h : ch ∈ (bs.map hexByte).flatten) : ch ∈ hexChars := by
  induction bs with
  | nil => simp at h
  | cons b rest ih =>
    simp only [List.map_cons, List.flatten_cons, List.mem_append] at h
    rcases h with h | h
    · simp only [hexByte, List.mem_cons, List.mem_singleton, List.not_mem_nil, or_false] at h
      rcases h with h | h
      · exact h ▸ hexChars_getD_mem _ (Nat.mod_lt _ (by norm_num))
      · exact h ▸ hexChars_getD_mem _ (Nat.mod_lt _ (by norm_num))
    · exact ih h

theorem hexEncode_mem_hexChars (bs : List Nat) (ch : Char)
    (h : ch ∈ (hexEncode bs).toList) : ch ∈ hexChars :=
  mem_flatten_map_hexByte bs ch h

/-! ## Cache header serialization lemmas -/

theorem new_unencrypted_to_bytes (chk : List Nat) (q s c : Nat) :
    (CacheFileHeader.new_unencrypted chk q s c).to_bytes =
      70 :: 72 :: 73 :: 67 :: 1 :: 0 :: q :: s :: (c / 256 % 256) :: (c % 256) ::
        (List.replicate 16 0 ++ (chk ++ List.replicate 12 0)) := by
  simp [CacheFileHeader.to_bytes, CacheFileHeader.new_unencrypted, CACHE_FILE_MAGIC,
    CACHE_FILE_VERSION, beBytes16]

theorem new_encrypted_to_bytes (chk non : List Nat) (q s c : Nat) :
    (CacheFileHeader.new_encrypted chk non q s c).to_bytes =
      70 :: 72 :: 73 :: 67 :: 1 :: 1 :: q :: s :: (c / 256 % 256) :: (c % 256) ::
        (List.replicate 16 0 ++ (chk ++ non)) := by
  simp [CacheFileHeader.to_bytes, CacheFileHeader.new_encrypted, CACHE_FILE_MAGIC,
    CACHE_FILE_VERSION, beBytes16]

theorem header_bytes_length (q s c e : Nat) (chk non : List Nat)
    (hc : chk.length = 32) (hn : non.length = 12) :
    (70 :: 72 :: 73 :: 67 :: 1 :: e :: q :: s :: (c / 256 % 256) :: (c % 256) ::
      (List.replicate 16 0 ++ (chk ++ non)) : List Nat).length = 70 := by
  simp [hc, hn]

theorem header_bytes_drop26 (q s c e : Nat) (chk non : List Nat) :
    (70 :: 72 :: 73 :: 67 :: 1 :: e :: q :: s :: (c / 256 % 256) :: (c % 256) ::
      (List.replicate 16 0 ++ (chk ++ non)) : List Nat).drop 26 = chk ++ non := rfl

theorem header_bytes_drop58 (q s c e : Nat) (chk non : List Nat)
    (hc : chk.length = 32) :
    (70 :: 72 :: 73 :: 67 :: 1 :: e :: q :: s :: (c / 256 % 256) :: (c % 256) ::
      (List.replicate 16 0 ++ (chk ++ non)) : List Nat).drop 58 = non := by
  have h1 : (70 :: 72 :: 73 :: 67 :: 1 :: e :: q :: s :: (c / 256 % 256) :: (c % 256) ::
      (List.replicate 16 0 ++ (chk ++ non)) : List Nat).drop 58 =
      ((70 :: 72 :: 73 :: 67 :: 1 :: e :: q :: s :: (c / 256 % 256) :: (c % 256) ::
        (List.replicate 16 0 ++ (chk ++ non)) : List Nat).drop 26).drop 32 := by
    rw [List.drop_drop]
  rw [h1, header_bytes_drop26]
  exact List.drop_left' hc

/-- `from_bytes` after `to_bytes` on the header shapes the constructors
build, with `rest` appended (the payload that follows the header in a cache
file): parsing sees only the first 70 bytes it indexes, so the result is
independent of `rest` once the length check passes. -/
theorem from_bytes_header_bytes (q s c e : Nat) (chk non : List Nat)
    (hc : chk.length = 32) (hn : non.length = 12) (hcc : c < 65536) :
    CacheFileHeader.from_bytes
      (70 :: 72 :: 73 :: 67 :: 1 :: e :: q :: s :: (c / 256 % 256) :: (c % 256) ::
        (List.replicate 16 0 ++ (chk ++ non))) =
      .ok { magic := CACHE_FILE_MAGIC, version := 1, encrypted := e, quality := q,
            speed := s, chroma := c, reserved := List.replicate 16 0,
            checksum := chk, nonce := non } := by
  have hlen := header_bytes_length q s c e chk non hc hn
  unfold CacheFileHeader.from_bytes
  rw [if_neg (by rw [hlen]; simp [HEADER_SIZE])]
  rw [if_neg (fun hh => hh rfl)]
  rw [if_neg (fun hh => hh rfl)]
  refine congrArg Except.ok ?_
  have hchk : ((70 :: 72 :: 73 :: 67 :: 1 :: e :: q :: s :: (c / 256 % 256) :: (c % 256) ::
      (List.replicate 16 0 ++ (chk ++ non)) : List Nat).drop 26).take 32 = chk := by
    rw [header_bytes_drop26]
    exact List.take_left' hc
  have hnon : ((70 :: 72 :: 73 :: 67 :: 1 :: e :: q :: s :: (c / 256 % 256) :: (c % 256) ::
      (List.replicate 16 0 ++ (chk ++ non)) : List Nat).drop 58).take 12 = non := by
    rw [header_bytes_drop58 q s c e chk non hc]
    exact List.take_of_length_le (le_of_eq hn)
  simp only [CacheFileHeader.mk.injEq]
  refine ⟨rfl, rfl, rfl, rfl, rfl, ?_, rfl, hchk, hnon⟩
  show fromBeBytes16 (c / 256 % 256) (c % 256) = c
  unfold fromBeBytes16
  omega

/-! ## Claim C4: header serialization -/

/-- **C4.** Cache header serialization is bit-exact: for the header values the
program constructs (`new_unencrypted` / `new_encrypted`, with the 32-byte
SHA-256 checksum, a 12-byte nonce and `u16` chroma), `to_bytes` produces
exactly 70 bytes with magic `F`,`H`,`I`,`C` at offset 0, version 1 at 4, the
encrypted flag at 5, quality at 6, speed at 7, big-endian chroma at 8-9, 16
zero reserved bytes at 10-25, the checksum at 26-57 and the nonce at 58-69
(all zero when unencrypted); `from_bytes` of that serialization succeeds and
rebuilds a header with the same field values. -/
theorem C4_header_serialization (q s c : Nat) (chk non : List Nat)
    (hc : chk.length = 32) (hn : non.length = 12) (hcc : c < 65536) :
    (∀ hd ∈ [CacheFileHeader.new_unencrypted chk q s c,
             CacheFileHeader.new_encrypted chk non q s c],
      hd.to_bytes.length = 70 ∧
      hd.to_bytes.take 4 = CACHE_FILE_MAGIC ∧
      hd.to_bytes.getD 4 0 = 1 ∧
      hd.to_bytes.getD 5 0 = hd.encrypted ∧
      hd.to_bytes.getD 6 0 = q ∧
      hd.to_bytes.getD 7 0 = s ∧
      (hd.to_bytes.drop 8).take 2 = [c / 256, c % 256] ∧
      (hd.to_bytes.drop 10).take 16 = List.replicate 16 0 ∧
      (hd.to_bytes.drop 26).take 32 = chk ∧
      (hd.to_bytes.drop 58).take 12 = hd.nonce ∧
      CacheFileHeader.from_bytes hd.to_bytes = .ok hd) ∧
    (CacheFileHeader.new_unencrypted chk q s c).encrypted = 0 ∧
    (CacheFileHeader.new_unencrypted chk q s c).nonce = List.replicate 12 0 ∧
    (CacheFileHeader.new_encrypted chk non q s c).encrypted = 1 ∧
    (CacheFileHeader.new_encrypted chk non q s c).nonce = non := by
  have hdiv : c / 256 % 256 = c / 256 := by omega
  refine ⟨?_, rfl, rfl, rfl, rfl⟩
  intro hd hmem
  simp only [List.mem_cons, List.not_mem_nil, or_false] at hmem
  rcases hmem with rfl | rfl
  · rw [new_unencrypted_to_bytes]
    refine ⟨header_bytes_length q s c 0 chk (List.replicate 12 0) hc (by simp),
      rfl, rfl, rfl, rfl, rfl, by rw [hdiv]; rfl, rfl, ?_, ?_, ?_⟩
    · rw [header_bytes_drop26]
      exact List.take_left' hc
    · rw [header_bytes_drop58 q s c 0 chk (List.replicate 12 0) hc]
      rfl
    · exact from_bytes_header_bytes q s c 0 chk (List.replicate 12 0) hc
        (by simp) hcc
  · rw [new_encrypted_to_bytes]
    refine ⟨header_bytes_length q s c 1 chk non hc hn,
      rfl, rfl, rfl, rfl, rfl, by rw [hdiv]; rfl, rfl, ?_, ?_, ?_⟩
    · rw [header_bytes_drop26]
      exact List.take_left' hc
    · rw [header_bytes_drop58 q s c 1 chk non hc]
      exact List.take_of_length_le (le_of_eq hn)
    · exact from_bytes_header_bytes q s c 1 chk non hc hn hcc

/-- Witness for C4: a concrete header round-trips through the byte format. -/
theorem C4_header_serialization_witness :
    (List.replicate 32 9 : List Nat).length = 32 ∧
    ([0, 1, 2, 3, 4, 5, 6, 7, 8, 9, 10, 11] : List Nat).length = 12 ∧
    (420 : Nat) < 65536 ∧
    (CacheFileHeader.new_unencrypted (List.replicate 32 9) 50 4 420).to_bytes.length = 70 ∧
    CacheFileHeader.from_bytes
        (CacheFileHeader.new_unencrypted (List.replicate 32 9) 50 4 420).to_bytes =
      .ok (CacheFileHeader.new_unencrypted (List.replicate 32 9) 50 4 420) := by
  have h := (C4_header_serialization 50 4 420 (List.replicate 32 9)
    [0, 1, 2, 3, 4, 5, 6, 7, 8, 9, 10, 11] (by decide) (by decide) (by decide)).1
    (CacheFileHeader.new_unencrypted (List.replicate 32 9) 50 4 420) (by simp)
  exact ⟨by decide, by decide, by decide, h.1, h.2.2.2.2.2.2.2.2.2.2⟩

/-! ## Claim C3: the cache key -/

/-- **C3.** `create_cache_key(host_path, original_size, params)` equals the
lowercase hexadecimal SHA-256 digest of the host path bytes, the size as 8
little-endian bytes, the quality byte, the speed byte, chroma as 2
little-endian bytes, and the max-resolution string bytes when present; it is
a deterministic pure function of exactly those inputs (it is a Lean function
of them), always 64 characters long, every character a lowercase hex digit. -/
theorem C3_cache_key (filepath : String) (original_size : Nat)
    (heic_settings : HeicSettings) :
    create_cache_key filepath original_size heic_settings =
      hexEncode (sha256 (strBytes filepath ++ leBytes64 original_size ++
        [heic_settings.quality] ++ [heic_settings.speed] ++
        leBytes16 heic_settings.chroma ++
        (match heic_settings.max_resolution with
         | some res_str => strBytes res_str
         | none => []))) ∧
    (create_cache_key filepath original_size heic_settings).length = 64 ∧
    ∀ ch ∈ (create_cache_key filepath original_size heic_settings).toList,
      ch ∈ hexChars := by
  refine ⟨rfl, ?_, ?_⟩
  · show (hexEncode (sha256 _)).length = 64
    rw [hexEncode_length, sha256_length]
  · intro ch hch
    exact hexEncode_mem_hexChars _ ch hch

/-- Witness for C3: the key of a concrete input, with its length. -/
theorem C3_cache_key_witness :
    create_cache_key "/src/a.jpg" 1000 ⟨50, 4, 420, none⟩ =
      "a9ccf5c7c21924d1e7df4bca8d7db103de054e32e7da1ee503629a44e9acef16" ∧
    (create_cache_key "/src/a.jpg" 1000 ⟨50, 4, 420, none⟩).length = 64 :=
  ⟨by decide, (C3_cache_key "/src/a.jpg" 1000 ⟨50, 4, 420, none⟩).2.1⟩

/-! ## Cache load/get lemmas -/

theorem load_from_disk_key_congr (st st' : CacheState) (key filepath : String)
    (hs : HeicSettings) (hd : st.disk = st'.disk)
    (he : st.encryption_enabled = st'.encryption_enabled) :
    ImageCache.load_from_disk_key st key filepath hs =
      ImageCache.load_from_disk_key st' key filepath hs := by
  simp only [ImageCache.load_from_disk_key, hd, he]

/-- On a memory miss whose disk load fails, `get` reports a miss and removes
the cache file (cache.rs:273-277). -/
theorem get_of_load_error (st : CacheState) (key filepath : String)
    (hs : HeicSettings) (e : String)
    (hmem : alookup st.mem key = none)
    (hdc : st.disk_cache_enabled = true)
    (hload : ImageCache.load_from_disk_key st key filepath hs = .error e) :
    (ImageCache.get st key filepath hs).1 = none ∧
    (ImageCache.get st key filepath hs).2.disk =
      aremove st.disk (get_cache_file_path key) := by
  obtain ⟨mem, ats, cur, mx, dsk, dce, enc, nw⟩ := st
  simp only at hmem hload hdc
  subst hdc
  have hload0 : ImageCache.load_from_disk_key
      ⟨mem, ainsert ats key nw, cur, mx, dsk, true, enc, nw + 1⟩
        key filepath hs = .error e :=
    (load_from_disk_key_congr _ _ key filepath hs rfl rfl).trans hload
  simp [ImageCache.get, hmem, hload0, ImageCache.remove_from_disk_key]

/-- Everything a successful `from_bytes` guarantees about the raw bytes and
the parsed fields. -/
theorem from_bytes_ok_facts (b : List Nat) (hd : CacheFileHeader)
    (h : CacheFileHeader.from_bytes b = .ok hd) :
    ¬ b.length < 70 ∧
    [b.getD 0 0, b.getD 1 0, b.getD 2 0, b.getD 3 0] = CACHE_FILE_MAGIC ∧
    hd.magic = CACHE_FILE_MAGIC ∧ hd.version = 1 ∧ b.getD 4 0 = 1 ∧
    hd.encrypted = b.getD 5 0 ∧ hd.quality = b.getD 6 0 ∧ hd.speed = b.getD 7 0 ∧
    hd.chroma = fromBeBytes16 (b.getD 8 0) (b.getD 9 0) ∧
    hd.checksum = (b.drop 26).take 32 ∧ hd.nonce = (b.drop 58).take 12 := by
  unfold CacheFileHeader.from_bytes at h
  split at h
  · simp at h
  · rename_i hlen
    split at h
    · simp at h
    · rename_i hmagic
      split at h
      · simp at h
      · rename_i hver
        rw [not_not] at hmagic
        simp only [Except.ok.injEq] at h
        subst h
        rw [not_not] at hver
        simp only [HEADER_SIZE] at hlen
        exact ⟨hlen, hmagic, hmagic, hver, hver, rfl, rfl, rfl, rfl, rfl, rfl⟩

/-- Everything a successful disk load guarantees (cache.rs:507-557): the
header parsed, the settings matched, decryption (when flagged) succeeded
under the instance key, and the plaintext checksum matched. -/
theorem load_ok_facts (st : CacheState) (key filepath : String)
    (hs : HeicSettings) (bytes d : List Nat)
    (hdisk : alookup st.disk (get_cache_file_path key) = some bytes)
    (h : ImageCache.load_from_disk_key st key filepath hs = .ok d) :
    ∃ hd, CacheFileHeader.from_bytes (bytes.take 70) = .ok hd ∧
      hd.matches_heic_settings hs.quality hs.speed hs.chroma = true ∧
      (hd.is_encrypted = true → st.encryption_enabled = true ∧
        aesGcmDecrypt (ImageCache.generate_encryption_key filepath) hd.nonce
          (bytes.drop 70) = some d) ∧
      (hd.is_encrypted = false → d = bytes.drop 70) ∧
      sha256 d = hd.checksum ∧ ¬ bytes.length < 70 := by
  unfold ImageCache.load_from_disk_key at h
  rw [hdisk] at h
  split at h
  · simp at h
  · rename_i fc hfc
    rw [Option.some.injEq] at hfc
    subst hfc
    split at h
    · simp at h
    · rename_i hlen
      simp only [HEADER_SIZE] at h hlen
      split at h
      · simp at h
      · rename_i header hfb
        refine ⟨header, hfb, ?_⟩
        split at h
        · simp at h
        · rename_i hmatch
          rw [not_not] at hmatch
          refine ⟨hmatch, ?_⟩
          split at h
          · simp at h
          · rename_i ddata hstep
            split at h
            · simp at h
            · rename_i hsha
              rw [not_not] at hsha
              simp only [Except.ok.injEq] at h
              subst h
              split at hstep
              · rename_i henc
                split at hstep
                · simp at hstep
                · rename_i hencen
                  rw [not_not] at hencen
                  split at hstep
                  · simp at hstep
                  · rename_i p hdec
                    simp only [Except.ok.injEq] at hstep
                    subst hstep
                    refine ⟨fun _ => ⟨hencen, hdec⟩, fun hf => ?_, hsha, hlen⟩
                    rw [hf] at henc
                    exact absurd henc (by simp)
              · rename_i henc
                simp only [Except.ok.injEq] at hstep
                subst hstep
                refine ⟨fun ht => absurd ht henc, fun _ => rfl, hsha, hlen⟩

theorem evict_loop_flags (target : Nat) (l : List (String × Nat)) (st : CacheState) :
    (ImageCache.evict_loop target l st).1.disk_cache_enabled = st.disk_cache_enabled ∧
    (ImageCache.evict_loop target l st).1.encryption_enabled = st.encryption_enabled := by
  induction l generalizing st with
  | nil => exact ⟨rfl, rfl⟩
  | cons p rest ih =>
    obtain ⟨key, t⟩ := p
    unfold ImageCache.evict_loop
    split
    · exact ⟨rfl, rfl⟩
    · split
      · exact ih _
      · exact ih _

theorem ensure_space_flags (st : CacheState) (needed : Nat) :
    (ImageCache.ensure_space st needed).1.disk_cache_enabled = st.disk_cache_enabled ∧
    (ImageCache.ensure_space st needed).1.encryption_enabled = st.encryption_enabled := by
  unfold ImageCache.ensure_space
  split
  · exact ⟨rfl, rfl⟩
  · exact evict_loop_flags _ _ _

/-- What `put` writes to disk for a key: the serialized header followed by
the payload (the plaintext, or its AEAD ciphertext when encryption is on). -/
theorem put_disk_lookup (st : CacheState) (key fp : String)
    (data nonce : List Nat) (hs : HeicSettings)
    (hdc : st.disk_cache_enabled = true) :
    alookup (ImageCache.put st key data fp hs nonce).disk
        (get_cache_file_path key) =
      some (if st.encryption_enabled then
        (CacheFileHeader.new_encrypted (sha256 data) nonce hs.quality hs.speed
          hs.chroma).to_bytes ++
          aesGcmEncrypt (ImageCache.generate_encryption_key fp) nonce data
      else
        (CacheFileHeader.new_unencrypted (sha256 data) hs.quality hs.speed
          hs.chroma).to_bytes ++ data) := by
  have hf := ensure_space_flags st data.length
  unfold ImageCache.put ImageCache.save_to_disk_key
  dsimp only
  rw [if_pos (hf.1.trans hdc)]
  dsimp only
  by_cases he : st.encryption_enabled = true
  · rw [if_pos (hf.2.trans he), if_pos he]
    exact alookup_ainsert_self _ _ _
  · rw [if_neg (fun hh => he (hf.2.symm.trans hh)), if_neg he]
    exact alookup_ainsert_self _ _ _

/-- A stored entry whose header parses but whose recorded encoder settings
differ from the requested ones fails the load with the settings-mismatch
error (cache.rs:523-532). -/
theorem load_settings_mismatch (st : CacheState) (key fp : String)
    (hs' : HeicSettings) (bytes : List Nat) (hd : CacheFileHeader)
    (hdisk : alookup st.disk (get_cache_file_path key) = some bytes)
    (hlen : ¬ bytes.length < 70)
    (hfb : CacheFileHeader.from_bytes (bytes.take 70) = .ok hd)
    (hmm : hd.matches_heic_settings hs'.quality hs'.speed hs'.chroma = false) :
    ImageCache.load_from_disk_key st key fp hs' =
      .error "HEIC settings mismatch, cache entry invalid" := by
  unfold ImageCache.load_from_disk_key
  rw [hdisk]
  simp only [HEADER_SIZE, hlen, if_false, hfb, hmm]
  simp

/-! ## Claim C1: the put/get round trip -/

/-- Counterexample to C1 as stated: within one process, `get` consults the
in-memory map first and returns the entry without validating the context
(cache.rs:250-253), so `put(k,P,C)` followed by `get(k,C')` with a quality
changed from 50 to 80 still returns `P`, and the cache file for `k` is not
deleted. -/
theorem C1_counterexample :
    (ImageCache.get
        (ImageCache.put (ImageCache.newState 1 [] false) "cachekey01"
          [1, 2, 3] "/src/a.jpg" ⟨50, 4, 420, none⟩ [])
        "cachekey01" "/src/a.jpg" ⟨80, 4, 420, none⟩).1 = some [1, 2, 3] ∧
    (alookup
        (ImageCache.get
          (ImageCache.put (ImageCache.newState 1 [] false) "cachekey01"
            [1, 2, 3] "/src/a.jpg" ⟨50, 4, 420, none⟩ [])
          "cachekey01" "/src/a.jpg" ⟨80, 4, 420, none⟩).2.disk
        (get_cache_file_path "cachekey01")).isSome = true := by
  exact ⟨by decide, by decide⟩

/-- **C1 (amended).** `put(k,P,C)` followed by `get(k,C)` returns exactly
`P`.  The second half holds once the in-memory entry for `k` is gone (e.g.
after a restart with the same disk): if a state has no memory entry for `k`
but its disk holds what `put(k,P,C)` wrote, then `get(k,C')` with a
different quality, speed or chroma returns nothing and deletes the cache
file for `k`.  (As stated the claim is false: within one process the
in-memory hit returns `P` without validating the context, see the
counterexample.) -/
theorem C1_roundtrip_amended :
    (∀ (st : CacheState) (key fp : String) (data nonce : List Nat)
       (hs : HeicSettings),
      (ImageCache.get (ImageCache.put st key data fp hs nonce) key fp hs).1 =
        some data) ∧
    (∀ (st st2 : CacheState) (key fp fp' : String) (data nonce : List Nat)
       (hs hs' : HeicSettings),
      hs.chroma < 65536 →
      nonce.length = 12 →
      (hs'.quality ≠ hs.quality ∨ hs'.speed ≠ hs.speed ∨ hs'.chroma ≠ hs.chroma) →
      st.disk_cache_enabled = true →
      alookup st2.mem key = none →
      st2.disk_cache_enabled = true →
      (st2.disk.map Prod.fst).Nodup →
      alookup st2.disk (get_cache_file_path key) =
        alookup (ImageCache.put st key data fp hs nonce).disk
          (get_cache_file_path key) →
      (ImageCache.get st2 key fp' hs').1 = none ∧
      alookup (ImageCache.get st2 key fp' hs').2.disk
        (get_cache_file_path key) = none) := by
  constructor
  · intro st key fp data nonce hs
    unfold ImageCache.put
    dsimp only
    split
    · simp [ImageCache.get, ImageCache.save_to_disk_key, alookup_ainsert_self]
    · simp [ImageCache.get, alookup_ainsert_self]
  · intro st st2 key fp fp' data nonce hs hs' hcc hnon hdiff hdc hmem2 hdc2
      hnodup2 heq
    rw [put_disk_lookup st key fp data nonce hs hdc] at heq
    have hload : ∃ e, ImageCache.load_from_disk_key st2 key fp' hs' = .error e := by
      by_cases he : st.encryption_enabled
      · rw [if_pos he] at heq
        refine ⟨_, load_settings_mismatch st2 key fp' hs' _
          (CacheFileHeader.new_encrypted (sha256 data) nonce hs.quality hs.speed
            hs.chroma) heq ?_ ?_ ?_⟩
        · rw [new_encrypted_to_bytes]
          simp only [List.length_append, header_bytes_length _ _ _ _ _ _
            (sha256_length data) hnon]
          omega
        · rw [List.take_left'
            (by rw [new_encrypted_to_bytes]
                exact header_bytes_length _ _ _ _ _ _ (sha256_length data) hnon)]
          rw [new_encrypted_to_bytes]
          exact from_bytes_header_bytes hs.quality hs.speed hs.chroma 1
            (sha256 data) nonce (sha256_length data) hnon hcc
        · simp only [CacheFileHeader.matches_heic_settings,
            CacheFileHeader.new_encrypted]
          rcases hdiff with hx | hx | hx <;> simp [Ne.symm hx]
      · rw [if_neg he] at heq
        refine ⟨_, load_settings_mismatch st2 key fp' hs' _
          (CacheFileHeader.new_unencrypted (sha256 data) hs.quality hs.speed
            hs.chroma) heq ?_ ?_ ?_⟩
        · rw [new_unencrypted_to_bytes]
          simp only [List.length_append, header_bytes_length _ _ _ _ _ _
            (sha256_length data) (List.length_replicate 12 0)]
          omega
        · rw [List.take_left'
            (by rw [new_unencrypted_to_bytes]
                exact header_bytes_length _ _ _ _ _ _ (sha256_length data) (by simp))]
          rw [new_unencrypted_to_bytes]
          exact from_bytes_header_bytes hs.quality hs.speed hs.chroma 0
            (sha256 data) (List.replicate 12 0) (sha256_length data) (by simp) hcc
        · simp only [CacheFileHeader.matches_heic_settings,
            CacheFileHeader.new_unencrypted]
          rcases hdiff with hx | hx | hx <;> simp [Ne.symm hx]
    obtain ⟨e, hload⟩ := hload
    have hg := get_of_load_error st2 key fp' hs' e hmem2 hdc2 hload
    refine ⟨hg.1, ?_⟩
    rw [hg.2]
    exact alookup_aremove_self _ _ hnodup2

/-- Witness for C1 (amended): a concrete round trip, and a concrete
restart-state mismatch miss that deletes the file. -/
theorem C1_roundtrip_amended_witness :
    ((ImageCache.get (ImageCache.put (ImageCache.newState 1 [] false) "cachekey01"
        [1, 2, 3] "/src/a.jpg" ⟨50, 4, 420, none⟩ (List.replicate 12 0))
        "cachekey01" "/src/a.jpg" ⟨50, 4, 420, none⟩).1 = some [1, 2, 3]) ∧
    ((80 : Nat) ≠ 50 ∨ (4 : Nat) ≠ 4 ∨ (420 : Nat) ≠ 420) ∧
    ((ImageCache.get
        { ImageCache.put (ImageCache.newState 1 [] false) "cachekey01"
            [1, 2, 3] "/src/a.jpg" ⟨50, 4, 420, none⟩ (List.replicate 12 0) with
          mem := [] }
        "cachekey01" "/src/a.jpg" ⟨80, 4, 420, none⟩).1 = none ∧
      alookup (ImageCache.get
        { ImageCache.put (ImageCache.newState 1 [] false) "cachekey01"
            [1, 2, 3] "/src/a.jpg" ⟨50, 4, 420, none⟩ (List.replicate 12 0) with
          mem := [] }
        "cachekey01" "/src/a.jpg" ⟨80, 4, 420, none⟩).2.disk
        (get_cache_file_path "cachekey01") = none) := by
  refine ⟨C1_roundtrip_amended.1 _ _ _ _ _ _, Or.inl (by decide), ?_⟩
  exact C1_roundtrip_amended.2 (ImageCache.newState 1 [] false) _ "cachekey01"
    "/src/a.jpg" "/src/a.jpg" [1, 2, 3] (List.replicate 12 0)
    ⟨50, 4, 420, none⟩ ⟨80, 4, 420, none⟩ (by decide) (by decide)
    (Or.inl (by decide)) (by decide) (by decide) (by decide) (by decide) rfl

theorem getD_take (l : List α) (n i : Nat) (d : α) (h : i < n) :
    (l.take n).getD i d = l.getD i d := by
  simp [List.getD_eq_getElem?_getD, List.getElem?_take_of_lt h]

/-! ## Claim C10: encrypted entry with encryption disabled -/

/-- **C10.** A stored entry whose header has the encrypted flag `1`, read by
a cache instance created with encryption disabled, never reaches decryption:
the disk load fails (the only successful load of a flagged entry requires
`encryption_enabled`, cache.rs:536-541), the file is deleted, and `get`
reports a miss. -/
theorem C10_encrypted_disabled_miss (st : CacheState) (key fp : String)
    (hs : HeicSettings) (bytes : List Nat)
    (hdc : st.disk_cache_enabled = true)
    (hmem : alookup st.mem key = none)
    (hnodup : (st.disk.map Prod.fst).Nodup)
    (hdisk : alookup st.disk (get_cache_file_path key) = some bytes)
    (hflag : bytes.getD 5 0 = 1)
    (henc : st.encryption_enabled = false) :
    (∃ e, ImageCache.load_from_disk_key st key fp hs = .error e) ∧
    (ImageCache.get st key fp hs).1 = none ∧
    alookup (ImageCache.get st key fp hs).2.disk
      (get_cache_file_path key) = none := by
  have hload : ∃ e, ImageCache.load_from_disk_key st key fp hs = .error e := by
    cases hl : ImageCache.load_from_disk_key st key fp hs with
    | error e => exact ⟨e, rfl⟩
    | ok d =>
      exfalso
      obtain ⟨hd, hfb, _, hencimp, _, _, _⟩ :=
        load_ok_facts st key fp hs bytes d hdisk hl
      obtain ⟨_, _, _, _, _, fenc, _⟩ := from_bytes_ok_facts _ _ hfb
      have h5 : (bytes.take 70).getD 5 0 = bytes.getD 5 0 :=
        getD_take bytes 70 5 0 (by norm_num)
      have hisenc : hd.is_encrypted = true := by
        unfold CacheFileHeader.is_encrypted
        rw [fenc, h5, hflag]
        rfl
      have := (hencimp hisenc).1
      rw [henc] at this
      exact absurd this (by simp)
  obtain ⟨e, he⟩ := hload
  have hg := get_of_load_error st key fp hs e hmem hdc he
  exact ⟨⟨e, he⟩, hg.1, hg.2 ▸ alookup_aremove_self _ _ hnodup⟩

/-- Witness for C10 at a concrete encrypted file and encryption-disabled
state. -/
theorem C10_encrypted_disabled_miss_witness :
    c10WitnessState.disk_cache_enabled = true ∧
    c10EncryptedFile.getD 5 0 = 1 ∧
    c10WitnessState.encryption_enabled = false ∧
    ((∃ e, ImageCache.load_from_disk_key c10WitnessState "cachekey01" "/src/a.jpg"
        ⟨50, 4, 420, none⟩ = .error e) ∧
      (ImageCache.get c10WitnessState "cachekey01" "/src/a.jpg"
        ⟨50, 4, 420, none⟩).1 = none ∧
      alookup (ImageCache.get c10WitnessState "cachekey01" "/src/a.jpg"
        ⟨50, 4, 420, none⟩).2.disk (get_cache_file_path "cachekey01") = none) :=
  ⟨by decide, by decide, by decide,
   C10_encrypted_disabled_miss c10WitnessState "cachekey01" "/src/a.jpg"
     ⟨50, 4, 420, none⟩ c10EncryptedFile (by decide) (by decide) (by decide)
     rfl rfl (by decide)⟩

/-! ## Claim C2: invalid stored entries are misses and are deleted -/

/-- **C2.** For a stored entry reached on a memory miss, any of the load-time
validation failures — file shorter than the 70-byte header, wrong magic,
unsupported version, stored encoder parameters differing from the requested
ones, AEAD decryption failure, or plaintext SHA-256 differing from the
header checksum (for the raw payload when unencrypted, or any decrypted
payload when encrypted) — makes `get` return nothing and delete the cache
file. -/
theorem C2_invalid_entry_miss_delete (st : CacheState) (key fp : String)
    (hs : HeicSettings) (bytes : List Nat)
    (hdc : st.disk_cache_enabled = true)
    (hmem : alookup st.mem key = none)
    (hnodup : (st.disk.map Prod.fst).Nodup)
    (hdisk : alookup st.disk (get_cache_file_path key) = some bytes)
    (hfail :
      bytes.length < 70 ∨
      [bytes.getD 0 0, bytes.getD 1 0, bytes.getD 2 0, bytes.getD 3 0] ≠
        CACHE_FILE_MAGIC ∨
      bytes.getD 4 0 ≠ CACHE_FILE_VERSION ∨
      bytes.getD 6 0 ≠ hs.quality ∨
      bytes.getD 7 0 ≠ hs.speed ∨
      fromBeBytes16 (bytes.getD 8 0) (bytes.getD 9 0) ≠ hs.chroma ∨
      (bytes.getD 5 0 = 1 ∧
        aesGcmDecrypt (ImageCache.generate_encryption_key fp)
          (((bytes.take 70).drop 58).take 12) (bytes.drop 70) = none) ∨
      (bytes.getD 5 0 ≠ 1 ∧
        sha256 (bytes.drop 70) ≠ ((bytes.take 70).drop 26).take 32) ∨
      (bytes.getD 5 0 = 1 ∧ ∀ p,
        aesGcmDecrypt (ImageCache.generate_encryption_key fp)
          (((bytes.take 70).drop 58).take 12) (bytes.drop 70) = some p →
        sha256 p ≠ ((bytes.take 70).drop 26).take 32)) :
    (ImageCache.get st key fp hs).1 = none ∧
    alookup (ImageCache.get st key fp hs).2.disk
      (get_cache_file_path key) = none := by
  have hload : ∃ e, ImageCache.load_from_disk_key st key fp hs = .error e := by
    cases hl : ImageCache.load_from_disk_key st key fp hs with
    | error e => exact ⟨e, rfl⟩
    | ok d =>
      exfalso
      obtain ⟨hd, hfb, hmatch, hencimp, hplain, hsha, hlen⟩ :=
        load_ok_facts st key fp hs bytes d hdisk hl
      obtain ⟨_, fmagic, _, _, fver, fenc, fq, fsp, fchr, fchk, fnon⟩ :=
        from_bytes_ok_facts _ _ hfb
      simp only [CacheFileHeader.matches_heic_settings, Bool.and_eq_true,
        decide_eq_true_eq] at hmatch
      obtain ⟨⟨hmq, hms⟩, hmc⟩ := hmatch
      have g0 : (bytes.take 70).getD 0 0 = bytes.getD 0 0 := getD_take _ _ _ _ (by norm_num)
      have g1 : (bytes.take 70).getD 1 0 = bytes.getD 1 0 := getD_take _ _ _ _ (by norm_num)
      have g2 : (bytes.take 70).getD 2 0 = bytes.getD 2 0 := getD_take _ _ _ _ (by norm_num)
      have g3 : (bytes.take 70).getD 3 0 = bytes.getD 3 0 := getD_take _ _ _ _ (by norm_num)
      have g4 : (bytes.take 70).getD 4 0 = bytes.getD 4 0 := getD_take _ _ _ _ (by norm_num)
      have g5 : (bytes.take 70).getD 5 0 = bytes.getD 5 0 := getD_take _ _ _ _ (by norm_num)
      have g6 : (bytes.take 70).getD 6 0 = bytes.getD 6 0 := getD_take _ _ _ _ (by norm_num)
      have g7 : (bytes.take 70).getD 7 0 = bytes.getD 7 0 := getD_take _ _ _ _ (by norm_num)
      have g8 : (bytes.take 70).getD 8 0 = bytes.getD 8 0 := getD_take _ _ _ _ (by norm_num)
      have g9 : (bytes.take 70).getD 9 0 = bytes.getD 9 0 := getD_take _ _ _ _ (by norm_num)
      rcases hfail with h | h | h | h | h | h | h | h | h
      · exact hlen h
      · rw [g0, g1, g2, g3] at fmagic
        exact h fmagic
      · rw [g4] at fver
        exact h fver
      · rw [g6] at fq
        exact h (fq.symm.trans hmq)
      · rw [g7] at fsp
        exact h (fsp.symm.trans hms)
      · rw [g8, g9] at fchr
        exact h (fchr.symm.trans hmc)
      · have hisenc : hd.is_encrypted = true := by
          unfold CacheFileHeader.is_encrypted
          rw [fenc, g5, h.1]
          rfl
        have hdec := (hencimp hisenc).2
        rw [fnon] at hdec
        rw [hdec] at h
        exact absurd h.2 (by simp)
      · have hisenc : hd.is_encrypted = false := by
          unfold CacheFileHeader.is_encrypted
          rw [fenc, g5]
          exact decide_eq_false h.1
        have hd' := hplain hisenc
        rw [hd'] at hsha
        rw [fchk] at hsha
        exact h.2 hsha
      · have hisenc : hd.is_encrypted = true := by
          unfold CacheFileHeader.is_encrypted
          rw [fenc, g5, h.1]
          rfl
        have hdec := (hencimp hisenc).2
        rw [fnon] at hdec
        have := h.2 d hdec
        rw [fchk] at hsha
        exact this hsha
  obtain ⟨e, he⟩ := hload
  have hg := get_of_load_error st key fp hs e hmem hdc he
  exact ⟨hg.1, hg.2 ▸ alookup_aremove_self _ _ hnodup⟩

/-- Witness for C2: a stored unencrypted entry whose third payload byte was
flipped from `3` to `250` fails the checksum, is reported as a miss, and its
file is deleted. -/
theorem C2_invalid_entry_miss_delete_witness :
    (c2TamperedFile.getD 5 0 ≠ 1 ∧
      sha256 (c2TamperedFile.drop 70) ≠
        ((c2TamperedFile.take 70).drop 26).take 32) ∧
    ((ImageCache.get c2WitnessState "cachekey01" "/src/a.jpg"
        ⟨50, 4, 420, none⟩).1 = none ∧
      alookup (ImageCache.get c2WitnessState "cachekey01" "/src/a.jpg"
        ⟨50, 4, 420, none⟩).2.disk (get_cache_file_path "cachekey01") = none) :=
  ⟨by decide,
   C2_invalid_entry_miss_delete c2WitnessState "cachekey01" "/src/a.jpg"
     ⟨50, 4, 420, none⟩ c2TamperedFile (by decide) (by decide) (by decide)
     rfl
     (Or.inr (Or.inr (Or.inr (Or.inr (Or.inr (Or.inr (Or.inr (Or.inl
       (by decide)))))))))⟩

/-! ## Eviction lemmas -/

theorem insertByTime_perm (p : String × Nat) (l : List (String × Nat)) :
    (ImageCache.insertByTime p l).Perm (p :: l) := by
  induction l with
  | nil => exact List.Perm.refl _
  | cons q rest ih =>
    unfold ImageCache.insertByTime
    split
    · exact (ih.cons q).trans (List.Perm.swap p q rest)
    · exact List.Perm.refl _

theorem sortByTime_perm (l : List (String × Nat)) :
    (ImageCache.sortByTime l).Perm l := by
  induction l with
  | nil => exact List.Perm.refl _
  | cons p rest ih =>
    exact (insertByTime_perm p (ImageCache.sortByTime rest)).trans (ih.cons p)

/-- After the eviction loop, the tracked byte count is at or below the
target: either the loop broke at the threshold, or every tracked entry was
evicted. -/
theorem evict_loop_size (target : Nat) (l : List (String × Nat))
    (st : CacheState)
    (hnd : (st.mem.map Prod.fst).Nodup)
    (hsub : ∀ k, (alookup st.mem k).isSome → k ∈ l.map Prod.fst)
    (hsum : st.current_size = (st.mem.map (fun p => p.2.size)).sum) :
    (ImageCache.evict_loop target l st).1.current_size ≤ target := by
  induction l generalizing st with
  | nil =>
    have hmem : st.mem = [] := by
      cases hm : st.mem with
      | nil => rfl
      | cons p rest =>
        exfalso
        have hp : (alookup st.mem p.1).isSome := by
          rw [hm]
          simp [alookup]
        have := hsub p.1 hp
        simp at this
    unfold ImageCache.evict_loop
    rw [hsum, hmem]
    simp
  | cons q rest ih =>
    obtain ⟨key, t⟩ := q
    unfold ImageCache.evict_loop
    split
    · rename_i hle
      exact hle
    · rename_i hgt
      cases hm : alookup st.mem key with
      | some entry =>
        dsimp only
        apply ih
        · exact aremove_map_fst_nodup _ _ hnd
        · intro k hk
          dsimp only at hk
          by_cases hkk : k = key
          · subst hkk
            rw [alookup_aremove_self _ _ hnd] at hk
            simp at hk
          · rw [alookup_aremove_ne _ _ _ hkk] at hk
            have hmem := hsub k hk
            simp only [List.map_cons, List.mem_cons] at hmem
            rcases hmem with h | h
            · exact absurd h hkk
            · exact h
        · dsimp only
          rw [hsum, aremove_sum _ _ _ hm]
      | none =>
        apply ih st hnd
        · intro k hk
          have hmem := hsub k hk
          simp only [List.map_cons, List.mem_cons] at hmem
          rcases hmem with h | h
          · subst h
            rw [hm] at hk
            simp at hk
          · exact h
        · exact hsum

/-- The evicted keys are a prefix of the loop order, restricted to keys
actually present in the memory map. -/
theorem evict_loop_deleted_take (target : Nat) (l : List (String × Nat))
    (st : CacheState) (hnd : (l.map Prod.fst).Nodup) :
    ∃ n, (ImageCache.evict_loop target l st).2 =
      ((l.map Prod.fst).filter (fun k => (alookup st.mem k).isSome)).take n := by
  induction l generalizing st with
  | nil => exact ⟨0, rfl⟩
  | cons q rest ih =>
    obtain ⟨key, t⟩ := q
    simp only [List.map_cons, List.nodup_cons] at hnd
    unfold ImageCache.evict_loop
    split
    · exact ⟨0, rfl⟩
    · cases hm : alookup st.mem key with
      | some entry =>
        obtain ⟨n, hn⟩ := ih
          { st with
            mem := aremove st.mem key
            access_times := aremove st.access_times key
            current_size := st.current_size - entry.size
            disk := if st.disk_cache_enabled then
                aremove st.disk (get_cache_file_path key)
              else st.disk } hnd.2
        refine ⟨n + 1, ?_⟩
        dsimp only at hn ⊢
        have hfc : (rest.map Prod.fst).filter
            (fun k => (alookup (aremove st.mem key) k).isSome) =
            (rest.map Prod.fst).filter (fun k => (alookup st.mem k).isSome) := by
          apply List.filter_congr
          intro k hk
          have hkk : k ≠ key := fun hh => hnd.1 (hh ▸ hk)
          rw [alookup_aremove_ne _ _ _ hkk]
        rw [hfc] at hn
        have hpred : (alookup st.mem key).isSome = true := by rw [hm]; rfl
        simp only [List.map_cons, List.filter_cons, hpred, if_true,
          List.take_succ_cons, hn]
      | none =>
        obtain ⟨n, hn⟩ := ih st hnd.2
        refine ⟨n, ?_⟩
        have hpred : (alookup st.mem key).isSome = false := by rw [hm]; rfl
        simp only [List.map_cons, List.filter_cons, hpred, Bool.false_eq_true,
          if_false, hn]

/-! ## Claim C5: eviction -/

/-- Counterexample to C5 as stated: eviction bounds only the in-memory
`current_size` counter, which counts payload bytes of entries of the current
process.  A valid cache file left by an earlier run is on disk but never
counted (`load_from_disk` resets `current_size` to 0 without tracking disk
files, cache.rs:439-453), and each disk file also carries a 70-byte header.
Here an eviction pass triggered by a 600000-byte need completes (it evicts
the one tracked entry), yet 1048647 bytes (> 1 MB budget) remain on disk. -/
theorem C5_counterexample :
    ¬ (c5CounterState.current_size + 600000 ≤ c5CounterState.max_size) ∧
    (ImageCache.ensure_space c5CounterState 600000).2 = ["aakey1"] ∧
    c5CounterState.max_size = 1 * 1024 * 1024 ∧
    diskTotal (ImageCache.ensure_space c5CounterState 600000).1 >
      c5CounterState.max_size := by
  have h1 : ImageCache.ensure_space c5CounterState 600000 =
      ({ mem := []
         access_times := []
         current_size := 0
         max_size := 1 * 1024 * 1024
         disk := [(("or", "phan"), orphanFile)]
         disk_cache_enabled := true
         encryption_enabled := false
         now := 1 }, ["aakey1"]) := rfl
  have horph : orphanFile.length = 1048647 := by
    show ((CacheFileHeader.new_unencrypted (List.replicate 32 0) 50 4 420).to_bytes ++
      List.replicate 1048577 0).length = 1048647
    rw [List.length_append, new_unencrypted_to_bytes,
      header_bytes_length 50 4 420 0 (List.replicate 32 0) (List.replicate 12 0)
        (List.length_replicate 32 0) (List.length_replicate 12 0),
      List.length_replicate]
  refine ⟨by decide, ?_, rfl, ?_⟩
  · rw [h1]
  · rw [h1]
    show diskTotal _ > 1 * 1024 * 1024
    simp only [diskTotal, List.map_cons, List.map_nil, List.sum_cons,
      List.sum_nil, horph]
    norm_num

/-- **C5 (amended).** After each eviction pass the *tracked in-memory* byte
count (`current_size`, the payload bytes of entries inserted by this
process) is at most `max_size_mb * 1024 * 1024`; the claim's bound on the
total on-disk byte count is false, since 70-byte file headers and files left
by previous runs are never counted (see the counterexample).  The second
half of the claim holds: the keys evicted by a pass are a prefix of the
entries in ascending access-time order (restricted to tracked entries). -/
theorem C5_eviction_amended (st : CacheState) (needed : Nat)
    (hndm : (st.mem.map Prod.fst).Nodup)
    (hnda : (st.access_times.map Prod.fst).Nodup)
    (hsub : ∀ k, (alookup st.mem k).isSome → k ∈ st.access_times.map Prod.fst)
    (hsum : st.current_size = (st.mem.map (fun p => p.2.size)).sum) :
    (ImageCache.ensure_space st needed).1.current_size ≤ st.max_size ∧
    ∃ n, (ImageCache.ensure_space st needed).2 =
      (((ImageCache.sortByTime st.access_times).map Prod.fst).filter
        (fun k => (alookup st.mem k).isSome)).take n := by
  have hperm : ((ImageCache.sortByTime st.access_times).map Prod.fst).Perm
      (st.access_times.map Prod.fst) :=
    (sortByTime_perm st.access_times).map Prod.fst
  unfold ImageCache.ensure_space
  split
  · rename_i hle
    refine ⟨?_, ⟨0, rfl⟩⟩
    dsimp only
    omega
  · constructor
    · refine le_trans (evict_loop_size _ _ _ hndm ?_ hsum) (Nat.sub_le _ _)
      intro k hk
      exact hperm.mem_iff.mpr (hsub k hk)
    · exact evict_loop_deleted_take _ _ _ (hperm.nodup_iff.mpr hnda)

/-- Witness for C5 (amended) at a concrete state. -/
theorem C5_eviction_amended_witness :
    ((ImageCache.ensure_space
        { mem := [], access_times := [("aab", 3)], current_size := 0,
          max_size := 1048576, disk := [], disk_cache_enabled := true,
          encryption_enabled := false, now := 4 } 5).1.current_size ≤ 1048576) ∧
    ∃ n, (ImageCache.ensure_space
        { mem := [], access_times := [("aab", 3)], current_size := 0,
          max_size := 1048576, disk := [], disk_cache_enabled := true,
          encryption_enabled := false, now := 4 } 5).2 =
      (((ImageCache.sortByTime [("aab", 3)]).map Prod.fst).filter
        (fun k => (alookup ([] : List (String × CacheEntry)) k).isSome)).take n :=
  C5_eviction_amended
    { mem := [], access_times := [("aab", 3)], current_size := 0,
      max_size := 1048576, disk := [], disk_cache_enabled := true,
      encryption_enabled := false, now := 4 } 5
    (by decide) (by decide)
    (fun k hk => absurd hk (by simp [alookup])) rfl

/-! ## Claim C6: `.heic` name resolution -/

/-- **C6.** For a virtual path whose last component has extension `heic`
(the formalization of "ends in `.heic`", with Rust `Path::extension`
semantics: a bare `.heic` component has no extension and takes the
direct-mapping branch instead), `get_real_path` follows exactly the claim's
algorithm: the candidate extensions are tried in the fixed order
`[heic, jpg, jpeg, png, gif, webp, bmp, tiff]` against the base host path
with its extension replaced, and the first candidate that exists on the host
and has a recognized image extension wins; if no candidate qualifies,
nothing is returned. -/
theorem C6_heic_resolution (path_exists is_image_file : String → Bool)
    (source_paths : List SourcePath) (virtual_path : String)
    (hext : pathExtension virtual_path = some "heic") :
    FileDetector.get_real_path path_exists is_image_file source_paths
        virtual_path =
      claimHeicResolution path_exists source_paths virtual_path := by
  unfold FileDetector.get_real_path claimHeicResolution
  cases hsplit : splitComponents virtual_path with
  | nil => rfl
  | cons mount relparts =>
    dsimp only
    cases hfind : source_paths.find? (fun sp => sp.mount_name == mount) with
    | none => rfl
    | some root =>
      dsimp only
      rw [if_pos hext]
      cases hstem : pathFileStem (pathJoin root.path (joinComponents relparts)) with
      | none =>
        have hwe : ∀ e, withExtension (pathJoin root.path (joinComponents relparts)) e
            = none := by
          intro e
          unfold withExtension
          rw [hstem]
        simp [FileDetector.extension_candidates, List.filterMap_cons, hwe]
      | some stem =>
        cases hpar : parentDir (pathJoin root.path (joinComponents relparts)) with
        | none =>
          have hwe : ∀ e, withExtension (pathJoin root.path (joinComponents relparts)) e
              = none := by
            intro e
            unfold withExtension
            rw [hstem, hpar]
          simp [FileDetector.extension_candidates, List.filterMap_cons, hwe]
        | some parent =>
          have hwe : ∀ e, withExtension (pathJoin root.path (joinComponents relparts)) e
              = some (pathJoin parent (stem ++ "." ++ e)) := by
            intro e
            unfold withExtension
            rw [hstem, hpar]
          simp only [FileDetector.extension_candidates, List.filterMap_cons, hwe,
            List.filterMap_nil, List.map_cons, List.map_nil]
          rfl

/-- Witness for C6: `pics/photo.heic` resolves to the first existing
candidate `/src/photo.jpg` on a host with only that file. -/
theorem C6_heic_resolution_witness :
    pathExtension "pics/photo.heic" = some "heic" ∧
    FileDetector.get_real_path (fun p => p == "/src/photo.jpg") (fun _ => false)
        [{ path := "/src", recursive := false, mount_name := "pics" }]
        "pics/photo.heic" =
      some "/src/photo.jpg" :=
  ⟨by decide,
   (C6_heic_resolution (fun p => p == "/src/photo.jpg") (fun _ => false)
      [{ path := "/src", recursive := false, mount_name := "pics" }]
      "pics/photo.heic" (by decide)).trans (by decide)⟩

/-! ## Claim C7: readdir -/

/-- Counterexample to C7 as stated: at the root directory `readdir` emits no
`..` entry at all (filesystem.rs:486-499 adds `..` only when the directory
is not "/"), so "." and ".." are not the first two entries of the full
listing: with an empty name-mapper listing the full sequence is `[.]`
alone. -/
theorem C7_counterexample :
    (ImageFuseFS.readdir ImageFuseFS.newState ROOT_INODE 0 []).1 =
      some [⟨ROOT_INODE, true, ".", 1⟩] ∧
    ((ImageFuseFS.readdir ImageFuseFS.newState ROOT_INODE 0 []).1.getD []).length
      = 1 :=
  ⟨rfl, rfl⟩

/-- **C7 (amended).** `readdir` emits `.` first; for a non-root directory it
emits `..` second (with the inode that `get_or_create_inode` assigns the
`Path::parent` of the directory, or the root inode if there is no parent);
the root directory emits no `..` entry (the claim's "parent of the root is
the root" case does not arise).  The name-mapper listing follows, with
cookies numbered sequentially from 1 in emission order, and the combined
sequence is returned with its first `offset` entries skipped. -/
theorem C7_readdir_amended (st : FsState) (parent : Nat) (offset : Nat)
    (listing : List (String × Nat × Bool)) (vp : String)
    (hvp : alookup st.inode_map parent = some vp) :
    (ImageFuseFS.readdir st parent offset listing).1 =
      some (((if vp = "/" then [(⟨parent, true, ".", 1⟩ : DirEntry)]
        else [(⟨parent, true, ".", 1⟩ : DirEntry),
          ⟨(match parentDir vp with
            | some pd => (ImageFuseFS.get_or_create_inode st pd).1
            | none => ROOT_INODE), true, "..", 2⟩]) ++
        listing.enum.map (fun p =>
          (⟨p.2.2.1, p.2.2.2, p.2.1,
            (if vp = "/" then 1 else 2) + p.1 + 1⟩ : DirEntry))).drop offset) := by
  unfold ImageFuseFS.readdir
  rw [hvp]
  by_cases hroot : vp = "/"
  · subst hroot
    rfl
  · dsimp only
    rw [if_neg hroot, if_neg hroot, if_neg hroot]
    cases hpd : parentDir vp with
    | some pd => rfl
    | none => rfl

/-- Witness for C7 (amended): a concrete non-root directory listing. -/
theorem C7_readdir_amended_witness :
    alookup (ImageFuseFS.get_or_create_inode ImageFuseFS.newState
      "pics").2.inode_map 2 = some "pics" ∧
    (ImageFuseFS.readdir
        (ImageFuseFS.get_or_create_inode ImageFuseFS.newState "pics").2 2 0
        [("a.heic", 7, false)]).1 =
      some [⟨2, true, ".", 1⟩, ⟨3, true, "..", 2⟩, ⟨7, false, "a.heic", 3⟩] :=
  ⟨rfl,
   (C7_readdir_amended
      (ImageFuseFS.get_or_create_inode ImageFuseFS.newState "pics").2 2 0
      [("a.heic", 7, false)] "pics" rfl).trans (by decide)⟩

/-! ## Inode-table lemmas -/

theorem alookup_singleton [DecidableEq α] (k k' : α) (v : β) :
    alookup [(k, v)] k' = if k = k' then some v else none := rfl

theorem inodeInv_newState : InodeInv ImageFuseFS.newState := by
  refine ⟨rfl, rfl, le_refl 2, ?_, ?_, ?_, ?_⟩
  · intro p i h
    rw [show ImageFuseFS.newState.path_map = [("/", 1)] from rfl,
      alookup_singleton] at h
    split at h
    · rename_i hp
      cases h
      subst hp
      rfl
    · cases h
  · intro i p h
    rw [show ImageFuseFS.newState.inode_map = [(1, "/")] from rfl,
      alookup_singleton] at h
    split at h
    · rename_i hi
      cases h
      subst hi
      rfl
    · cases h
  · intro p i h
    rw [show ImageFuseFS.newState.path_map = [("/", 1)] from rfl,
      alookup_singleton] at h
    split at h
    · cases h
      show 1 < 2
      omega
    · cases h
  · intro p i h hp
    rw [show ImageFuseFS.newState.path_map = [("/", 1)] from rfl,
      alookup_singleton] at h
    split at h
    · rename_i hp2
      exact absurd hp2.symm hp
    · cases h

theorem goc_preserves_lookup (st : FsState) (p q : String) (j : Nat)
    (h : alookup st.path_map q = some j) :
    alookup (ImageFuseFS.get_or_create_inode st p).2.path_map q = some j := by
  unfold ImageFuseFS.get_or_create_inode
  cases hl : alookup st.path_map p with
  | some i => exact h
  | none =>
    dsimp only
    by_cases hq : q = p
    · subst hq
      rw [hl] at h
      cases h
    · rw [alookup_ainsert_ne _ _ _ _ hq]
      exact h

theorem inodeInv_goc (st : FsState) (p : String) (hInv : InodeInv st) :
    InodeInv (ImageFuseFS.get_or_create_inode st p).2 := by
  obtain ⟨hroot, hiroot, h2, hfwd, hbwd, hlt, hge2⟩ := hInv
  unfold ImageFuseFS.get_or_create_inode
  cases hl : alookup st.path_map p with
  | some i => exact ⟨hroot, hiroot, h2, hfwd, hbwd, hlt, hge2⟩
  | none =>
    dsimp only
    have hne_root : p ≠ "/" := by
      intro hh
      rw [hh, hroot] at hl
      cases hl
    have h1lt : 1 < st.next_inode := by omega
    refine ⟨?_, ?_, ?_, ?_, ?_, ?_, ?_⟩
    · rw [alookup_ainsert_ne _ _ _ _ (Ne.symm hne_root)]
      exact hroot
    · rw [alookup_ainsert_ne _ _ _ _ (Nat.ne_of_lt h1lt)]
      exact hiroot
    · show 2 ≤ st.next_inode + 1
      omega
    · intro q j hq
      by_cases hqp : q = p
      · subst hqp
        rw [alookup_ainsert_self] at hq
        cases hq
        rw [alookup_ainsert_self]
      · rw [alookup_ainsert_ne _ _ _ _ hqp] at hq
        have hj := hlt _ _ hq
        rw [alookup_ainsert_ne _ _ _ _ (Nat.ne_of_lt hj)]
        exact hfwd _ _ hq
    · intro j q hq
      by_cases hjn : j = st.next_inode
      · subst hjn
        rw [alookup_ainsert_self] at hq
        cases hq
        rw [alookup_ainsert_self]
      · rw [alookup_ainsert_ne _ _ _ _ hjn] at hq
        have hb := hbwd _ _ hq
        by_cases hqp : q = p
        · subst hqp
          rw [hl] at hb
          cases hb
        · rw [alookup_ainsert_ne _ _ _ _ hqp]
          exact hb
    · intro q j hq
      by_cases hqp : q = p
      · subst hqp
        rw [alookup_ainsert_self] at hq
        cases hq
        show st.next_inode < st.next_inode + 1
        omega
      · rw [alookup_ainsert_ne _ _ _ _ hqp] at hq
        have := hlt _ _ hq
        show j < st.next_inode + 1
        omega
    · intro q j hq hqroot
      by_cases hqp : q = p
      · subst hqp
        rw [alookup_ainsert_self] at hq
        cases hq
        omega
      · rw [alookup_ainsert_ne _ _ _ _ hqp] at hq
        exact hge2 _ _ hq hqroot

theorem inodeInv_applyTrace (st : FsState) (tr : List String)
    (h : InodeInv st) : InodeInv (ImageFuseFS.applyTrace st tr) := by
  induction tr generalizing st with
  | nil => exact h
  | cons p rest ih => exact ih _ (inodeInv_goc _ _ h)

theorem applyTrace_preserves_lookup (st : FsState) (tr : List String)
    (q : String) (j : Nat) (h : alookup st.path_map q = some j) :
    alookup (ImageFuseFS.applyTrace st tr).path_map q = some j := by
  induction tr generalizing st with
  | nil => exact h
  | cons p rest ih => exact ih _ (goc_preserves_lookup _ _ _ _ h)

theorem goc_of_lookup (st : FsState) (p : String) (i : Nat)
    (h : alookup st.path_map p = some i) :
    (ImageFuseFS.get_or_create_inode st p).1 = i := by
  unfold ImageFuseFS.get_or_create_inode
  rw [h]

theorem goc_result_lookup (st : FsState) (p : String) :
    alookup (ImageFuseFS.get_or_create_inode st p).2.path_map p =
      some (ImageFuseFS.get_or_create_inode st p).1 := by
  unfold ImageFuseFS.get_or_create_inode
  cases hl : alookup st.path_map p with
  | some i => exact hl
  | none => exact alookup_ainsert_self _ _ _

theorem goc_next_mono (st : FsState) (p : String) :
    st.next_inode ≤ (ImageFuseFS.get_or_create_inode st p).2.next_inode := by
  unfold ImageFuseFS.get_or_create_inode
  cases hl : alookup st.path_map p with
  | some i => exact le_refl _
  | none =>
    show st.next_inode ≤ st.next_inode + 1
    omega

theorem applyTrace_next_mono (st : FsState) (tr : List String) :
    st.next_inode ≤ (ImageFuseFS.applyTrace st tr).next_inode := by
  induction tr generalizing st with
  | nil => exact le_refl _
  | cons p rest ih => exact le_trans (goc_next_mono st p) (ih _)

/-! ## Claim C8: inode allocation invariants -/

/-- **C8.** Starting from the fresh inode table (root "/" at inode 1,
counter at 2) and after any sequence of `get_or_create_inode` calls: the two
maps remain mutually inverse (bidirectional), "/" keeps inode 1, every
non-root inode is at least 2, all allocated inodes are below the
monotonically increasing counter (so inodes are never reused), and the
inode returned for a path is the same however many further allocations
happen in between. -/
theorem C8_inode_invariants (tr : List String) :
    InodeInv (ImageFuseFS.applyTrace ImageFuseFS.newState tr) ∧
    (∀ p tr2,
      (ImageFuseFS.get_or_create_inode
        (ImageFuseFS.applyTrace
          (ImageFuseFS.get_or_create_inode
            (ImageFuseFS.applyTrace ImageFuseFS.newState tr) p).2 tr2) p).1 =
      (ImageFuseFS.get_or_create_inode
        (ImageFuseFS.applyTrace ImageFuseFS.newState tr) p).1) ∧
    (∀ p, p ≠ "/" →
      2 ≤ (ImageFuseFS.get_or_create_inode
        (ImageFuseFS.applyTrace ImageFuseFS.newState tr) p).1) ∧
    (∀ tr2, (ImageFuseFS.applyTrace ImageFuseFS.newState tr).next_inode ≤
      (ImageFuseFS.applyTrace
        (ImageFuseFS.applyTrace ImageFuseFS.newState tr) tr2).next_inode) := by
  have hInv := inodeInv_applyTrace ImageFuseFS.newState tr inodeInv_newState
  obtain ⟨hroot, hiroot, h2, hfwd, hbwd, hlt, hge2⟩ := hInv
  refine ⟨⟨hroot, hiroot, h2, hfwd, hbwd, hlt, hge2⟩, ?_, ?_, ?_⟩
  · intro p tr2
    have h1 := goc_result_lookup (ImageFuseFS.applyTrace ImageFuseFS.newState tr) p
    have h2' := applyTrace_preserves_lookup _ tr2 p _ h1
    exact goc_of_lookup _ _ _ h2'
  · intro p hp
    unfold ImageFuseFS.get_or_create_inode
    cases hl : alookup (ImageFuseFS.applyTrace ImageFuseFS.newState tr).path_map p with
    | some i => exact hge2 _ _ hl hp
    | none => exact h2
  · intro tr2
    exact applyTrace_next_mono _ tr2

/-- Witness for C8: the inode of "a" is stable across later allocations,
and concretely equals 2. -/
theorem C8_inode_invariants_witness :
    (ImageFuseFS.get_or_create_inode
      (ImageFuseFS.applyTrace
        (ImageFuseFS.get_or_create_inode
          (ImageFuseFS.applyTrace ImageFuseFS.newState ["a"]) "a").2 ["b"]) "a").1 =
    (ImageFuseFS.get_or_create_inode
      (ImageFuseFS.applyTrace ImageFuseFS.newState ["a"]) "a").1 ∧
    (ImageFuseFS.get_or_create_inode
      (ImageFuseFS.applyTrace ImageFuseFS.newState ["a"]) "a").1 = 2 :=
  ⟨(C8_inode_invariants ["a"]).2.1 "a" ["b"], by decide⟩

/-! ## Claim C9: read slicing -/

/-- Counterexample to C9 as stated: for `offset = 2^64 - 1` (a valid u64
offset, at or past end-of-file) and `size = 2`, the `offset as usize + size
as usize` addition wraps to 1, producing the reversed range `[3..1]` on a
3-byte artifact: the slice panics (debug builds already panic at the
overflowing addition) instead of returning an empty slice. -/
theorem C9_counterexample :
    ImageFuseFS.read_slice [1, 2, 3] 18446744073709551615 2 = none ∧
    (3 : Nat) ≤ 18446744073709551615 :=
  ⟨by decide, by decide⟩

/-- **C9 (amended).** Whenever `offset + size` does not overflow `usize`
(always true for kernel-issued reads: `offset ≤ 2^63 - 1` and `size` is at
most the negotiated max read size), `read` returns exactly
`bytes[min(offset, len) .. min(offset + size, len)]` of the served
artifact; in particular any offset at or past end-of-file yields an empty
slice and not an error. -/
theorem C9_read_slice_amended (data : List Nat) (offset size : Nat)
    (hno : offset + size < ImageFuseFS.USIZE_MOD) :
    ImageFuseFS.read_slice data offset size =
      some ((data.take (min (offset + size) data.length)).drop
        (min offset data.length)) ∧
    (data.length ≤ offset →
      ImageFuseFS.read_slice data offset size = some []) := by
  have hmod : (offset + size) % ImageFuseFS.USIZE_MOD = offset + size :=
    Nat.mod_eq_of_lt hno
  have hmain : ImageFuseFS.read_slice data offset size =
      some ((data.take (min (offset + size) data.length)).drop
        (min offset data.length)) := by
    unfold ImageFuseFS.read_slice
    dsimp only
    rw [hmod,
      if_pos (min_le_min (Nat.le_add_right offset size) (le_refl data.length))]
  refine ⟨hmain, fun hoff => ?_⟩
  rw [hmain, Nat.min_eq_right hoff,
    Nat.min_eq_right (le_trans hoff (Nat.le_add_right _ _)), List.take_length,
    List.drop_length]

/-- Witness for C9 (amended): a concrete in-range read. -/
theorem C9_read_slice_amended_witness :
    (1 : Nat) + 2 < ImageFuseFS.USIZE_MOD ∧
    ImageFuseFS.read_slice [1, 2, 3, 4, 5] 1 2 =
      some (([1, 2, 3, 4, 5].take (min (1 + 2) 5)).drop (min 1 5)) ∧
    ImageFuseFS.read_slice [1, 2, 3, 4, 5] 1 2 = some [2, 3] :=
  ⟨by decide,
   ((C9_read_slice_amended [1, 2, 3, 4, 5] 1 2 (by decide)).1.trans
     (by decide)).symm.trans (by decide),
   (C9_read_slice_amended [1, 2, 3, 4, 5] 1 2 (by decide)).1.trans (by decide)⟩

end Img2Heic
